import Mathlib

/-!
NCM playlist import of the Emby plugin (`src/emby.js`).

A shallow embedding of the import pipeline of `src/emby.js`:

* the match scorer inside `findAndMergeNcmTrackOnEmby` (lines 534-604),
* the reference pattern of `importNcmSheet` (lines 652-662),
* the metadata loop and the matching loop of `processNcmPlaylistImport`
  (lines 606-650), with `getNcmTrackDetails` and `getNcmPlaylistTrackIds`,
* the two record builders `formatNcmMusicItem` and `formatEmbyMusicItem`
  (lines 125-150, 186-200).

Network calls and host-language library functions (`toLowerCase`, the HTTP
client) are not part of the source file; they are fields of `Env` and of
`Server`. Every effectful function returns its value together with the list
of requests it issued, in program order. The claims about one call of the
matcher take the answer of its search as given (`Env.searchMusic`); the
matching loop as a whole is also modelled with the module variables that
its searches share (`Session`, `matchLoopIn`).
-/

set_option autoImplicit false

namespace Emby

/-! ## Data model -/

/-- A JavaScript string seen as its sequence of UTF-16 code units. The
reference pattern has no `u` flag, so it consumes one code unit per atom. -/
abbrev JSString := List Nat

/-- Code units of an ASCII literal. -/
def lit (s : String) : JSString := s.toList.map Char.toNat

/-- The track record built by `formatEmbyMusicItem`, `formatNcmMusicItem` and
the merge step: `duration` is a number of seconds or `undefined`, `artwork`
a URL or absent. -/
structure MusicItem where
  id : String
  title : String
  artist : String
  album : String
  artwork : Option String
  duration : Option Int
  source : String
  ncmId : Option String
deriving DecidableEq, Repr

/-- The album object of a raw song (`al` / `album`). -/
structure NcmAlbum where
  name : Option String
  picUrl : Option String
deriving DecidableEq, Repr

/-- A raw song of the `/api/song/detail` response, as read by
`formatNcmMusicItem`: `artists` is `ar || artists` (the `name` of each entry),
`album` is `al || album`, `dt` the length in milliseconds. -/
structure NcmSong where
  id : Nat
  name : Option String
  artists : Option (List String)
  album : Option NcmAlbum
  dt : Option Nat
deriving DecidableEq, Repr

/-- What the pipeline consumes from outside `src/emby.js`. A request either
throws (`.error message`) or answers.
* `toLowerCase`: `String.prototype.toLowerCase`;
* `searchMusic q`: the answer one call `searchMusic(q, 1, NCM_MATCH_RESULT_COUNT)`
  gets, its `data` or the message it throws; the call itself, with the
  module variables it shares with the other calls, is `searchMusicUnit`;
* `playlistDetail id`: the listing request; `none` when the answer has no
  `playlist.trackIds`, else the `id` of every entry;
* `songDetail ids`: the detail request; `none` when the answer has no
  `songs`. -/
structure Env where
  toLowerCase : String → String
  searchMusic : String → Except String (List MusicItem)
  playlistDetail : JSString → Except String (Option (List Nat))
  songDetail : List Nat → Except String (Option (List NcmSong))

/-- Requests and join points, in program order. -/
inductive Event where
  | listRequest (id : JSString)
  | detailRequest (ids : List Nat)
  | searchStart (ncmTrack : MusicItem)
  | awaitAll (units : List MusicItem)
deriving DecidableEq, Repr

def NCM_IMPORT_CONCURRENCY : Nat := 5

def DURATION_TOLERANCE_SECONDS : Nat := 5

/-! ## The match scorer (`findAndMergeNcmTrackOnEmby`, lines 546-599) -/

/-- Line 551. -/
def titleMatch (env : Env) (ncmTrack embyTrack : MusicItem) : Bool :=
  decide (env.toLowerCase embyTrack.title = env.toLowerCase ncmTrack.title)

/-- Line 552. -/
def artistMatch (env : Env) (ncmTrack embyTrack : MusicItem) : Bool :=
  decide (env.toLowerCase embyTrack.artist = env.toLowerCase ncmTrack.artist)

/-- Lines 553-566: both durations are numbers and differ by at most the
tolerance. -/
def durationMatch (ncmTrack embyTrack : MusicItem) : Bool :=
  match embyTrack.duration, ncmTrack.duration with
  | some e, some n => decide ((e - n).natAbs ≤ DURATION_TOLERANCE_SECONDS)
  | _, _ => false

/-- The `for` loop of lines 549-583 over the remaining candidates, from the
running state `(bestMatch, bestMatchScore)`. The `break` of line 571 ends
the scan; the two following `if`s are not exclusive. (`currentScore` is
written but never read.) -/
def scoreLoop (env : Env) (ncmTrack : MusicItem) :
    List MusicItem → Option MusicItem → Int → Option MusicItem
  | [], bestMatch, _ => bestMatch
  | embyTrack :: rest, bestMatch, bestMatchScore =>
    let t := titleMatch env ncmTrack embyTrack
    let a := artistMatch env ncmTrack embyTrack
    let d := durationMatch ncmTrack embyTrack
    if t && a && d then some embyTrack
    else
      let s1 : Option MusicItem × Int :=
        if t && a && decide (bestMatchScore < 15) then (some embyTrack, 15)
        else (bestMatch, bestMatchScore)
      let s2 : Option MusicItem × Int :=
        if t && d && decide (s1.2 < 10) then (some embyTrack, 10) else s1
      scoreLoop env ncmTrack rest s2.1 s2.2

/-- Lines 546-583: the scan from `bestMatch = null`, `bestMatchScore = -1`. -/
def bestMatchOf (env : Env) (ncmTrack : MusicItem) (data : List MusicItem) :
    Option MusicItem :=
  scoreLoop env ncmTrack data none (-1)

/-- Lines 586-594: the merged record. -/
def finalTrackItem (ncmTrack bestMatch : MusicItem) : MusicItem :=
  { id := bestMatch.id
    title := bestMatch.title
    artist := bestMatch.artist
    album := bestMatch.album
    artwork := ncmTrack.artwork
    duration := bestMatch.duration
    source := "emby_ncm_artwork"
    ncmId := none }

/-- Line 535. -/
def searchQuery (ncmTrack : MusicItem) : String :=
  ncmTrack.title ++ " " ++ ncmTrack.artist

/-- `findAndMergeNcmTrackOnEmby` (lines 534-604): `none` is `null`. The
`try`/`catch` turns a throwing search into `null`. -/
def findAndMergeNcmTrackOnEmby (env : Env) (ncmTrack : MusicItem) : Option MusicItem :=
  match env.searchMusic (searchQuery ncmTrack) with
  | .error _ => none
  | .ok data =>
    if data.length = 0 then none
    else
      match bestMatchOf env ncmTrack data with
      | some bestMatch => some (finalTrackItem ncmTrack bestMatch)
      | none => none

/-- Rule 1 of the scorer: all three signals. -/
def perfectMatch (env : Env) (ncmTrack embyTrack : MusicItem) : Bool :=
  titleMatch env ncmTrack embyTrack && artistMatch env ncmTrack embyTrack
    && durationMatch ncmTrack embyTrack

/-- Tier 15: title and artist. -/
def goodMatch (env : Env) (ncmTrack embyTrack : MusicItem) : Bool :=
  titleMatch env ncmTrack embyTrack && artistMatch env ncmTrack embyTrack

/-- Tier 10: title and duration. -/
def decentMatch (env : Env) (ncmTrack embyTrack : MusicItem) : Bool :=
  titleMatch env ncmTrack embyTrack && durationMatch ncmTrack embyTrack

/-! ## The reference pattern (`importNcmSheet`, line 653)

The pattern is matched by the host's backtracking engine. `Re.run r s` lists
every way `r` can match at cursor `s`, in the engine's order of preference
(leftmost alternative first, greedy quantifiers longest first); the engine
takes the first one that lets the rest of the pattern succeed, which is the
head of the list for the whole pattern. -/

/-- Atoms consuming one code unit: a literal, `.`, `[0-9]` (also `\d`), `\s`. -/
inductive Atom where
  | unit (c : Nat)
  | dot
  | digit
  | space
deriving DecidableEq, Repr

/-- Line terminators, which `.` does not match. -/
def isLineTerminator (c : Nat) : Bool :=
  c == 0x0A || c == 0x0D || c == 0x2028 || c == 0x2029

/-- ASCII decimal digits. -/
def isDigit (c : Nat) : Bool := decide (48 ≤ c) && decide (c ≤ 57)

/-- The code units `\s` matches: white space and line terminators. -/
def isWhiteSpace (c : Nat) : Bool :=
  c == 0x09 || c == 0x0A || c == 0x0B || c == 0x0C || c == 0x0D || c == 0x20
    || c == 0xA0 || c == 0x1680 || (decide (0x2000 ≤ c) && decide (c ≤ 0x200A))
    || c == 0x2028 || c == 0x2029 || c == 0x202F || c == 0x205F || c == 0x3000
    || c == 0xFEFF

def Atom.test : Atom → Nat → Bool
  | .unit c, x => x == c
  | .dot, x => !isLineTerminator x
  | .digit, x => isDigit x
  | .space, x => isWhiteSpace x

/-- The fragment of pattern syntax line 653 uses. Quantifiers are greedy;
`star` and `plus` apply to one atom, `opt` to a group; `group n` is the
n-th capturing group; `bol` is `^`, `eol` is `$` (no `m` flag). -/
inductive Re where
  | eps
  | atom (a : Atom)
  | bol
  | eol
  | seq (r₁ r₂ : Re)
  | alt (r₁ r₂ : Re)
  | star (a : Atom)
  | plus (a : Atom)
  | opt (r : Re)
  | group (n : Nat) (r : Re)
deriving DecidableEq, Repr

/-- A position in the subject: index of the next code unit, the code units
from there on, and the captures made so far. -/
structure Cursor where
  pos : Nat
  rest : JSString
  caps : List (Nat × JSString)
deriving DecidableEq, Repr

/-- Greedy `a*`: the longest run first, then each shorter one. -/
def starRun (a : Atom) (caps : List (Nat × JSString)) : Nat → JSString → List Cursor
  | pos, [] => [⟨pos, [], caps⟩]
  | pos, c :: cs =>
    if a.test c then starRun a caps (pos + 1) cs ++ [⟨pos, c :: cs, caps⟩]
    else [⟨pos, c :: cs, caps⟩]

/-- All matches of `r` at cursor `s`, most preferred first. -/
def Re.run : Re → Cursor → List Cursor
  | .eps, s => [s]
  | .atom a, s =>
    match s.rest with
    | [] => []
    | c :: cs => if a.test c then [⟨s.pos + 1, cs, s.caps⟩] else []
  | .bol, s => if s.pos = 0 then [s] else []
  | .eol, s => if s.rest.length = 0 then [s] else []
  | .seq r₁ r₂, s => (Re.run r₁ s).flatMap (fun s₁ => Re.run r₂ s₁)
  | .alt r₁ r₂, s => Re.run r₁ s ++ Re.run r₂ s
  | .star a, s => starRun a s.caps s.pos s.rest
  | .plus a, s =>
    match s.rest with
    | [] => []
    | c :: cs => if a.test c then starRun a s.caps (s.pos + 1) cs else []
  | .opt r, s => Re.run r s ++ [s]
  | .group n r, s =>
    (Re.run r s).map
      (fun s₁ => { s₁ with caps := (n, s.rest.take (s₁.pos - s.pos)) :: s₁.caps })

/-- Concatenation of a list of patterns. -/
def Re.cat : List Re → Re
  | [] => .eps
  | r :: rs => .seq r (Re.cat rs)

/-- A run of literal code units. -/
def Re.lits (s : String) : Re := Re.cat (s.toList.map (fun c => Re.atom (.unit c.toNat)))

/-- The engine's scan: try the pattern at the current index, else move one
code unit to the right, up to and including the end of the subject. -/
def execFrom (re : Re) : Nat → JSString → Option Cursor
  | pos, [] => (re.run ⟨pos, [], []⟩).head?
  | pos, c :: cs =>
    match (re.run ⟨pos, c :: cs, []⟩).head? with
    | some m => some m
    | none => execFrom re (pos + 1) cs

/-- `subject.match(re)` for a pattern without the `g` flag: `none` is `null`. -/
def jsMatch (re : Re) (subject : JSString) : Option Cursor := execFrom re 0 subject

/-- `matchResult[n]` for a capturing group: `none` is `undefined`. -/
def Cursor.capture (m : Cursor) (n : Nat) : Option JSString := m.caps.lookup n

/-- `(?:https:\/\/y\.music\.163.com\/m\/playlist\?id=([0-9]+))`: the dot
before `com` is not escaped. -/
def shapeA : Re :=
  Re.cat [Re.lits "https://y.music.163", .atom .dot, Re.lits "com/m/playlist?id=",
    .group 1 (.plus .digit)]

/-- `(?:https?:\/\/music\.163\.com\/playlist\/([0-9]+)\/.*)`. -/
def shapeB : Re :=
  Re.cat [Re.lits "http", .opt (Re.lits "s"), Re.lits "://music.163.com/playlist/",
    .group 2 (.plus .digit), Re.lits "/", .star .dot]

/-- `(?:https?:\/\/music.163.com(?:\/#)?\/playlist\?id=(\d+))`: neither dot
of the host is escaped. -/
def shapeC : Re :=
  Re.cat [Re.lits "http", .opt (Re.lits "s"), Re.lits "://music", .atom .dot,
    Re.lits "163", .atom .dot, Re.lits "com", .opt (Re.lits "/#"),
    Re.lits "/playlist?id=", .group 3 (.plus .digit)]

/-- `(?:^\s*(\d+)\s*$)`. -/
def shapeD : Re :=
  Re.cat [.bol, .star .space, .group 4 (.plus .digit), .star .space, .eol]

/-- The pattern of line 653. -/
def ncmPattern : Re := .alt shapeA (.alt shapeB (.alt shapeC shapeD))

/-- `a || b` on capture values: `undefined` and the empty string are falsy. -/
def orElseTruthy (a b : Option JSString) : Option JSString :=
  match a with
  | some (c :: cs) => some (c :: cs)
  | _ => b

/-- Line 657; `none` when the result is falsy. -/
def extractId (m : Cursor) : Option JSString :=
  match orElseTruthy (m.capture 1)
      (orElseTruthy (m.capture 2) (orElseTruthy (m.capture 3) (m.capture 4))) with
  | some (c :: cs) => some (c :: cs)
  | _ => none

/-! ## Upstream playlist client (lines 186-200, 499-532) -/

/-- `s || d` on an optional string. -/
def orDefault (s : Option String) (d : String) : String :=
  match s with
  | some v => if v = "" then d else v
  | none => d

/-- `formatNcmMusicItem` (lines 186-200). `Math.round(dt / 1000)` on a
non-negative integer number of milliseconds rounds half up. -/
def formatNcmMusicItem (ncmSong : NcmSong) : MusicItem :=
  { id := "ncm-tmp-" ++ toString ncmSong.id
    title := orDefault ncmSong.name "未知歌曲"
    artist :=
      match ncmSong.artists with
      | some (a :: as) => "/".intercalate (a :: as)
      | _ => "未知艺术家"
    album := orDefault (ncmSong.album.bind (fun al => al.name)) "未知专辑"
    artwork := ncmSong.album.bind (fun al => al.picUrl)
    duration :=
      match ncmSong.dt with
      | some dt => if dt = 0 then none else some (((dt + 500) / 1000 : Nat) : Int)
      | none => none
    source := "ncm-import"
    ncmId := some (toString ncmSong.id) }

/-- `getNcmTrackDetails` (lines 499-516): never throws; an empty argument
issues no request. -/
def getNcmTrackDetails (env : Env) (trackIds : List Nat) : List MusicItem × List Event :=
  if trackIds.length = 0 then ([], [])
  else
    match env.songDetail trackIds with
    | .ok (some songs) =>
      if songs.length > 0 then (songs.map formatNcmMusicItem, [.detailRequest trackIds])
      else ([], [.detailRequest trackIds])
    | .ok none => ([], [.detailRequest trackIds])
    | .error _ => ([], [.detailRequest trackIds])

/-- `getNcmPlaylistTrackIds` (lines 518-532): the `throw` of line 527 is
inside the `try`, so it is caught and re-thrown by line 530. -/
def getNcmPlaylistTrackIds (env : Env) (id : JSString) :
    Except String (List Nat) × List Event :=
  match env.playlistDetail id with
  | .ok (some trackIds) => (.ok trackIds, [.listRequest id])
  | .ok none =>
    (.error ("获取网易云歌单信息失败: " ++ "无法获取网易云歌单详情。"), [.listRequest id])
  | .error message => (.error ("获取网易云歌单信息失败: " ++ message), [.listRequest id])

/-! ## Import orchestrator (`processNcmPlaylistImport`, lines 606-650) -/

def batchSizeNcm : Nat := 200

/-- The `for` loop of lines 613-617 from index `i`, with the tracks and the
requests so far. The first argument bounds the number of iterations; the
caller passes the number of IDs, which is never exhausted. -/
def metadataLoop (env : Env) (trackIds : List Nat) :
    Nat → Nat → List MusicItem → List Event → List MusicItem × List Event
  | 0, _, ncmTracks, trace => (ncmTracks, trace)
  | fuel + 1, i, ncmTracks, trace =>
    if i < trackIds.length then
      let batchIds := (trackIds.drop i).take batchSizeNcm
      let batchResult := getNcmTrackDetails env batchIds
      metadataLoop env trackIds fuel (i + batchSizeNcm) (ncmTracks ++ batchResult.1)
        (trace ++ batchResult.2)
    else (ncmTracks, trace)

/-- Lines 611-617. -/
def fetchNcmTracks (env : Env) (trackIds : List Nat) : List MusicItem × List Event :=
  metadataLoop env trackIds trackIds.length 0 [] []

/-- State of the matching loop: `matchedEmbyTracks`, the tracks whose units
are in `searchPromises`, and the events so far. The promise of a track's
unit resolves to `findAndMergeNcmTrackOnEmby` of that track (the `.then`
only counts and logs, the `.catch` only sees a promise that never rejects). -/
structure MatchState where
  matchedEmbyTracks : List MusicItem
  searchPromises : List MusicItem
  trace : List Event
deriving DecidableEq, Repr

/-- `Promise.all(searchPromises)` followed by the `forEach` of lines 640 and
646: results come in the order of the array; the non-null ones are pushed.
Here every unit's search is the answer `env.searchMusic` gives to its query;
`settleIn` is the same step with the session the units share. -/
def settle (env : Env) (st : MatchState) : MatchState :=
  { matchedEmbyTracks :=
      st.matchedEmbyTracks ++ st.searchPromises.filterMap (findAndMergeNcmTrackOnEmby env)
    searchPromises := st.searchPromises
    trace := st.trace ++ [.awaitAll st.searchPromises] }

/-- One iteration of the loop of lines 623-643. -/
def matchStep (env : Env) (st : MatchState) (ncmTrack : MusicItem) : MatchState :=
  let st₁ : MatchState :=
    { st with
      searchPromises := st.searchPromises ++ [ncmTrack]
      trace := st.trace ++ [.searchStart ncmTrack] }
  if st₁.searchPromises.length ≥ NCM_IMPORT_CONCURRENCY then
    { settle env st₁ with searchPromises := [] }
  else st₁

/-- Lines 644-647: the last partial group. -/
def settleRest (env : Env) (st : MatchState) : MatchState :=
  if st.searchPromises.length > 0 then settle env st else st

/-- Lines 619-647: the loop, then the last partial group. -/
def matchLoop (env : Env) (ncmTracks : List MusicItem) : MatchState :=
  settleRest env (ncmTracks.foldl (matchStep env) ⟨[], [], []⟩)

/-- `processNcmPlaylistImport` (lines 606-650). -/
def processNcmPlaylistImport (env : Env) (id : JSString) :
    Except String (List MusicItem) × List Event :=
  match getNcmPlaylistTrackIds env id with
  | (.error message, trace) => (.error message, trace)
  | (.ok trackIds, trace) =>
    if trackIds.length = 0 then (.ok [], trace)
    else
      let fetched := fetchNcmTracks env trackIds
      let st := matchLoop env fetched.1
      (.ok st.matchedEmbyTracks, trace ++ fetched.2 ++ st.trace)

/-- Lines 653-660 of `importNcmSheet`: the ID the reference resolves to, or the
message of the error thrown. -/
def resolveNcmId (urlLike : JSString) : Except String JSString :=
  match jsMatch ncmPattern urlLike with
  | none => .error "无法识别的网易云歌单链接或 ID 格式。"
  | some matchResult =>
    match extractId matchResult with
    | none => .error "无法从输入中提取有效的网易云歌单 ID。"
    | some id => .ok id

/-- `importNcmSheet` (lines 652-662). -/
def importNcmSheet (env : Env) (urlLike : JSString) :
    Except String (List MusicItem) × List Event :=
  match resolveNcmId urlLike with
  | .error message => (.error message, [])
  | .ok id => processNcmPlaylistImport env id

/-! ## Vocabulary of the orchestrator's properties -/

/-- Consecutive slices of `l` of the given size: slice `j` is
`l[size * j, size * j + size)`, for `j` below the length divided by the size,
rounded up. -/
def slices {α : Type} (size : Nat) (l : List α) : List (List α) :=
  (List.range ((l.length + size - 1) / size)).map (fun j => (l.drop (size * j)).take size)

/-- Effect of one event on the number of units in `searchPromises`: a started
unit is pushed; after `Promise.all` has settled the awaited units they are no
longer pending. -/
def pendingStep (n : Nat) : Event → Nat
  | .searchStart _ => n + 1
  | .awaitAll units => n - units.length
  | _ => n

/-- Number of pending units after a sequence of events. -/
def pendingAfter (trace : List Event) : Nat := trace.foldl pendingStep 0

/-- The output as the claim words it: the external track list mapped through
the matcher, nulls dropped, in external-track order. -/
def matchedInTrackOrder (env : Env) (ncmTracks : List MusicItem) : List MusicItem :=
  ncmTracks.filterMap (findAndMergeNcmTrackOnEmby env)

/-- The events of one group of the matching loop: every unit of the group is
started, then the whole group is awaited. -/
def groupEvents (g : List MusicItem) : List Event :=
  g.map Event.searchStart ++ [Event.awaitAll g]

/-- The engine's first choice for `r` at `s`, when `r` is the whole pattern. -/
def Re.first (r : Re) (s : Cursor) : Option Cursor := (r.run s).head?

/-! ## Local catalog records (`formatEmbyMusicItem`, lines 125-150) -/

/-- A raw item of the local server's answer, as read by `formatEmbyMusicItem`:
`Id` is `String(embyItem.Id)`, `primaryImageTag` is `ImageTags?.Primary`,
`RunTimeTicks` counts units of 100 ns. -/
structure EmbyItem where
  Id : String
  Name : Option String
  Artists : Option (List String)
  Album : Option String
  primaryImageTag : Option String
  AlbumPrimaryImageTag : Option String
  RunTimeTicks : Option Nat
deriving DecidableEq, Repr

/-- `getEmbyArtworkUrl` (lines 125-135) with the default type and sizes;
`embyHost` is the module variable, `none` when not set. -/
def getEmbyArtworkUrl (embyHost : Option String) (itemId : String)
    (imageTag : Option String) : Option String :=
  match imageTag with
  | none => none
  | some tag =>
    if itemId = "" ∨ tag = "" then none
    else
      match embyHost with
      | none => none
      | some host =>
        if host = "" then none
        else some (host ++ "/Items/" ++ itemId ++ "/Images/Primary?tag=" ++ tag
          ++ "&maxWidth=600&maxHeight=600&quality=90")

/-- `a || b` on optional strings. -/
def orElseString (a b : Option String) : Option String :=
  match a with
  | some v => if v = "" then b else some v
  | none => b

/-- `formatEmbyMusicItem` (lines 137-150). `Math.round(RunTimeTicks / 10000000)`
on a non-negative integer rounds half up. -/
def formatEmbyMusicItem (embyHost : Option String) (embyItem : EmbyItem) : MusicItem :=
  { id := embyItem.Id
    title := orDefault embyItem.Name "未知歌曲"
    artist := orDefault (some (", ".intercalate (embyItem.Artists.getD []))) "未知艺术家"
    album := orDefault embyItem.Album "未知专辑"
    artwork := getEmbyArtworkUrl embyHost embyItem.Id
      (orElseString embyItem.primaryImageTag embyItem.AlbumPrimaryImageTag)
    duration :=
      match embyItem.RunTimeTicks with
      | some ticks =>
        if ticks = 0 then none else some (((ticks + 5000000) / 10000000 : Nat) : Int)
      | none => none
    source := "emby"
    ncmId := none }

/-! ## The scorer as the specification words it -/

/-- The update rule of the specification: rule 1, else rule 2, else rule 3,
else discard, as one exclusive chain over the running state
`(bestCandidate, bestScore)`. -/
def specScoreLoop (env : Env) (external : MusicItem) :
    List MusicItem → Option MusicItem → Int → Option MusicItem
  | [], bestCandidate, _ => bestCandidate
  | candidate :: rest, bestCandidate, bestScore =>
    if titleMatch env external candidate && artistMatch env external candidate
        && durationMatch external candidate then some candidate
    else if titleMatch env external candidate && artistMatch env external candidate
        && decide (bestScore < 15) then specScoreLoop env external rest (some candidate) 15
    else if titleMatch env external candidate && durationMatch external candidate
        && decide (bestScore < 10) then specScoreLoop env external rest (some candidate) 10
    else specScoreLoop env external rest bestCandidate bestScore

/-- The specified scorer, from the initial state `(null, -1)`. -/
def specScore (env : Env) (external : MusicItem) (candidates : List MusicItem) :
    Option MusicItem :=
  specScoreLoop env external candidates none (-1)

/-- Rule 2 fires in the code's loop at running score `bestMatchScore`
(line 573). -/
def rule2Fires (env : Env) (ncmTrack embyTrack : MusicItem) (bestMatchScore : Int) : Bool :=
  titleMatch env ncmTrack embyTrack && artistMatch env ncmTrack embyTrack
    && decide (bestMatchScore < 15)

/-- Rule 3 fires in the code's loop (line 578), tested on the score that the
`if` of line 573 has left. -/
def rule3Fires (env : Env) (ncmTrack embyTrack : MusicItem) (bestMatchScore : Int) : Bool :=
  titleMatch env ncmTrack embyTrack && durationMatch ncmTrack embyTrack
    && decide ((if rule2Fires env ncmTrack embyTrack bestMatchScore then 15
      else bestMatchScore) < 10)

/-! ## The local search with its session (lines 13-15, 23-123, 202-223)

`searchMusic` reads and writes the module variables `embyAccessToken`,
`embyUserId`, `embyHost`. The units of one group are started one after the
other before any answer arrives, so each of them reads the session as it is
when the group starts (`s₀` below): `searchMusic` builds its path and its
`UserId` parameter from `embyUserId` at line 205 and 217, and
`ensureEmbyLogin` decides at line 68 whether to log in, before the `await`
of line 87 returns. The answers are then taken in track order, each unit
running to its end when its answer arrives; `s` is the session at that
moment. -/

/-- The module variables of lines 13-15; `none` is `null`. -/
structure Session where
  embyAccessToken : Option String
  embyUserId : Option String
  embyHost : Option String
deriving DecidableEq, Repr

/-- An error of the HTTP client: `error.response?.status` (absent when there
is no response), `error.response.data?.error_message`, `error.message`. -/
structure HttpError where
  status : Option Nat
  errorMessage : Option String
  message : String
deriving DecidableEq, Repr

/-- The local server and the host application, as the plugin sees them.
* `getUserVariables`: `url`, `username`, `password` of the plugin settings;
* `authenticate loginUrl username password`: the login request; the answer
  carries `AccessToken` and `User.Id`, or `none` when one is missing;
* `getItems fullUrl userId searchTerm token`: the search request of
  `searchMusic(query, 1, 5)` — its URL, its `UserId` and `SearchTerm`
  parameters and the token of its header — answering `data?.Items`. -/
structure Server where
  getUserVariables : Option String × Option String × Option String
  authenticate : String → String → String → Except HttpError (Option (String × String))
  getItems : String → Option String → String → String →
    Except HttpError (Option (List EmbyItem))

/-- The value when it is truthy: not `null` and not the empty string. -/
def truthy (o : Option String) : Option String :=
  match o with
  | some v => if v = "" then none else some v
  | none => none

/-- The test of line 68. -/
def Session.loggedIn (s : Session) : Bool :=
  (truthy s.embyAccessToken).isSome && (truthy s.embyUserId).isSome
    && (truthy s.embyHost).isSome

/-- Lines 77-81: add `http://` when no scheme is given, drop trailing
slashes. -/
def normalizeHostUrl (url : String) : String :=
  let cs := url.toList
  let withScheme :=
    if "http://".toList.isPrefixOf cs || "https://".toList.isPrefixOf cs then cs
    else "http://".toList ++ cs
  String.mk (withScheme.reverse.dropWhile (fun c => c == '/')).reverse

/-- The message thrown by lines 59-63 of `loginEmby`. -/
def loginFailureMessage (error : HttpError) : String :=
  match error.status with
  | some status =>
    "Emby 登录失败 (" ++ toString status ++ "): "
      ++ orDefault error.errorMessage error.message
  | none => "Emby 登录失败: " ++ error.message

/-- `loginEmby` (lines 33-65): the session it leaves, and the message when it
throws. A failure clears the three variables. -/
def loginEmby (srv : Server) (url username password : String) : Except String Unit × Session :=
  match srv.authenticate (url ++ "/Users/AuthenticateByName") username password with
  | .ok (some (accessToken, userId)) =>
    if accessToken = "" ∨ userId = "" then
      (.error (loginFailureMessage ⟨none, none, "Emby 登录失败：服务器响应无效。"⟩),
        ⟨none, none, none⟩)
    else (.ok (), ⟨some accessToken, some userId, some url⟩)
  | .ok none =>
    (.error (loginFailureMessage ⟨none, none, "Emby 登录失败：服务器响应无效。"⟩),
      ⟨none, none, none⟩)
  | .error error => (.error (loginFailureMessage error), ⟨none, none, none⟩)

/-- Lines 72-83 of `ensureEmbyLogin`, once line 68 has found no session. -/
def loginFromSettings (srv : Server) (s : Session) : Except String Unit × Session :=
  match truthy srv.getUserVariables.1, truthy srv.getUserVariables.2.1,
      truthy srv.getUserVariables.2.2 with
  | some url, some username, some password =>
    loginEmby srv (normalizeHostUrl url) username password
  | _, _, _ => (.error "请先在插件设置中填写 Emby 服务器地址、用户名和密码。", s)

/-- `ensureEmbyLogin` (lines 67-84) called on session `s`. -/
def ensureEmbyLogin (srv : Server) (s : Session) : Except String Unit × Session :=
  if s.loggedIn then (.ok (), s) else loginFromSettings srv s

/-- `embyApiGet` (lines 86-123) for one unit of a group. Line 68 is decided on
`s₀`; lines 88-89 read `s₀` when no login was needed (nothing has been
written since) and the session the unit's own login has just written
otherwise. The `401` branch clears token and user ID, logs in again and
retries the same URL. -/
def embyApiGetUnit (srv : Server) (s₀ s : Session) (urlPath : String)
    (userId : Option String) (searchTerm : String) :
    Except String (Option (List EmbyItem)) × Session :=
  let entered : Except String Session × Session :=
    if s₀.loggedIn then (.ok s₀, s)
    else
      match loginFromSettings srv s with
      | (.ok _, s₁) => (.ok s₁, s₁)
      | (.error message, s₁) => (.error message, s₁)
  match entered with
  | (.error message, s₁) => (.error message, s₁)
  | (.ok read, s₁) =>
    let fullUrl := read.embyHost.getD "null" ++ urlPath
    match truthy read.embyAccessToken with
    | none => (.error "Emby 未认证，无法发送请求。", s₁)
    | some token =>
      match srv.getItems fullUrl userId searchTerm token with
      | .ok data => (.ok data, s₁)
      | .error error =>
        if error.status = some 401 then
          match ensureEmbyLogin srv { s₁ with embyAccessToken := none, embyUserId := none } with
          | (.error message, s₂) => (.error message, s₂)
          | (.ok _, s₂) =>
            match truthy s₂.embyAccessToken with
            | some retryToken =>
              match srv.getItems fullUrl userId searchTerm retryToken with
              | .ok data => (.ok data, s₂)
              | .error retryError =>
                (.error ("Emby API 请求失败 (重试后): " ++ retryError.message), s₂)
            | none => (.error "Emby API 请求失败：重新登录后仍无法认证。", s₂)
        else (.error ("Emby API 请求失败: " ++ error.message), s₁)

/-- `searchMusic(query, 1, NCM_MATCH_RESULT_COUNT)` (lines 202-223) for one
unit of a group: its `data`, or the message thrown, and the session it
leaves. The path is built from `embyUserId` as the unit finds it when it
starts (`null` prints as `null`); the records are built when the answer has
arrived. -/
def searchMusicUnit (srv : Server) (s₀ s : Session) (query : String) :
    Except String (List MusicItem) × Session :=
  match embyApiGetUnit srv s₀ s ("/Users/" ++ s₀.embyUserId.getD "null" ++ "/Items")
      s₀.embyUserId query with
  | (.ok data, s₁) => (.ok ((data.getD []).map (formatEmbyMusicItem s₁.embyHost)), s₁)
  | (.error message, s₁) => (.error message, s₁)

/-- Lines 541-603 of `findAndMergeNcmTrackOnEmby`, from the outcome of the
search: the `catch` of line 600 turns a throw into `null`. -/
def mergeSearchResult (env : Env) (ncmTrack : MusicItem)
    (searchResult : Except String (List MusicItem)) : Option MusicItem :=
  match searchResult with
  | .error _ => none
  | .ok data =>
    if data.length = 0 then none
    else
      match bestMatchOf env ncmTrack data with
      | some bestMatch => some (finalTrackItem ncmTrack bestMatch)
      | none => none

/-- The units of one group, answered in track order: each track with the
outcome of its search, and the session left by the last one. -/
def runUnits (srv : Server) (s₀ : Session) :
    List MusicItem → Session → List (MusicItem × Except String (List MusicItem)) × Session
  | [], s => ([], s)
  | ncmTrack :: rest, s =>
    let unit := searchMusicUnit srv s₀ s (searchQuery ncmTrack)
    let others := runUnits srv s₀ rest unit.2
    ((ncmTrack, unit.1) :: others.1, others.2)

/-- State of the matching loop with the session: `matchedEmbyTracks`, the
tracks whose units are in `searchPromises`, the module variables, and the
search outcome of every settled unit, in the order of settling. -/
structure SessionMatchState where
  matchedEmbyTracks : List MusicItem
  searchPromises : List MusicItem
  session : Session
  outcomes : List (MusicItem × Except String (List MusicItem))
deriving Repr

/-- `Promise.all(searchPromises)` and the `forEach` of lines 640 and 646, with
the session: the pending units all started on the session of the group's
start. -/
def settleIn (env : Env) (srv : Server) (st : SessionMatchState) : SessionMatchState :=
  let settled := runUnits srv st.session st.searchPromises st.session
  { matchedEmbyTracks :=
      st.matchedEmbyTracks ++ settled.1.filterMap (fun p => mergeSearchResult env p.1 p.2)
    searchPromises := st.searchPromises
    session := settled.2
    outcomes := st.outcomes ++ settled.1 }

/-- One iteration of the loop of lines 623-643, with the session. -/
def matchStepIn (env : Env) (srv : Server) (st : SessionMatchState) (ncmTrack : MusicItem) :
    SessionMatchState :=
  let st₁ : SessionMatchState :=
    { st with searchPromises := st.searchPromises ++ [ncmTrack] }
  if st₁.searchPromises.length ≥ NCM_IMPORT_CONCURRENCY then
    { settleIn env srv st₁ with searchPromises := [] }
  else st₁

/-- Lines 644-647, with the session. -/
def settleRestIn (env : Env) (srv : Server) (st : SessionMatchState) : SessionMatchState :=
  if st.searchPromises.length > 0 then settleIn env srv st else st

/-- Lines 619-647 run on session `s`. -/
def matchLoopIn (env : Env) (srv : Server) (s : Session) (ncmTracks : List MusicItem) :
    SessionMatchState :=
  settleRestIn env srv (ncmTracks.foldl (matchStepIn env srv) ⟨[], [], s, []⟩)

/-- `processNcmPlaylistImport` (lines 606-650) run on session `s`: what it
returns and the session it leaves. -/
def processNcmPlaylistImportIn (env : Env) (srv : Server) (s : Session) (id : JSString) :
    Except String (List MusicItem) × Session :=
  match getNcmPlaylistTrackIds env id with
  | (.error message, _) => (.error message, s)
  | (.ok trackIds, _) =>
    if trackIds.length = 0 then (.ok [], s)
    else
      let st := matchLoopIn env srv s (fetchNcmTracks env trackIds).1
      (.ok st.matchedEmbyTracks, st.session)

/-- A session that is established and that no answer of the server will
clear: the variables are set and no search request is answered with 401. -/
def StableSession (srv : Server) (s : Session) : Prop :=
  s.loggedIn = true ∧
    ∀ fullUrl userId searchTerm token error,
      srv.getItems fullUrl userId searchTerm token = .error error → error.status ≠ some 401

/-- The environment in which every search gets the answer the server gives
on session `s`. -/
def sessionEnv (env : Env) (srv : Server) (s : Session) : Env :=
  { env with searchMusic := fun query => (searchMusicUnit srv s s query).1 }

/-! ## Concrete data for the worked examples -/

/-- An environment whose search answers with a fixed candidate list; the
example strings are compared as they are. -/
def envWith (data : List MusicItem) : Env :=
  { toLowerCase := fun s => s
    searchMusic := fun _ => .ok data
    playlistDetail := fun _ => .ok (some [])
    songDetail := fun _ => .ok (some []) }

/-- An environment whose every search throws; the playlist has two tracks. -/
def envThrow : Env :=
  { toLowerCase := fun s => s
    searchMusic := fun _ => .error "search failed"
    playlistDetail := fun _ => .ok (some [1, 2])
    songDetail := fun ids =>
      .ok (some (ids.map (fun i => ⟨i, some "A", some ["B"], none, some 200000⟩))) }

def mkTrack (id title artist : String) (duration : Option Int) : MusicItem :=
  { id := id, title := title, artist := artist, album := "", artwork := none,
    duration := duration, source := "emby", ncmId := none }

def extAB : MusicItem :=
  { id := "ncm-tmp-1", title := "A", artist := "B", album := "", artwork := some "art",
    duration := some 200, source := "ncm-import", ncmId := some "1" }

/-- Title and duration only (tier 10). -/
def candTD : MusicItem := mkTrack "e-td" "A" "X" (some 203)

/-- Title and artist only (tier 15). -/
def candTA : MusicItem := mkTrack "e-ta" "A" "B" (some 500)

/-- A second title and artist candidate. -/
def candTA2 : MusicItem := mkTrack "e-ta2" "A" "B" none

/-- All three signals: the duration differs by one second. -/
def candTAD : MusicItem := mkTrack "e-tad" "A" "B" (some 201)

/-- A second candidate with all three signals. -/
def candTAD2 : MusicItem := mkTrack "e-tad2" "A" "B" (some 200)

/-- Title only. -/
def candT : MusicItem := mkTrack "e-t" "A" "X" (some 500)

/-- Artist and duration only. -/
def candAD : MusicItem := mkTrack "e-ad" "Z" "B" (some 200)

/-- A canonical link followed by a short link. -/
def twoLinks : JSString :=
  lit "https://music.163.com/playlist?id=1 https://y.music.163.com/m/playlist?id=2"

/-- An external song and a local item with the same two artists. -/
def songTwoArtists : NcmSong :=
  { id := 7, name := some "A", artists := some ["X", "Y"], album := none, dt := some 200000 }

def itemTwoArtists : EmbyItem :=
  { Id := "e7", Name := some "A", Artists := some ["X", "Y"], Album := none,
    primaryImageTag := none, AlbumPrimaryImageTag := none, RunTimeTicks := some 2000000000 }

/-- A fresh session: the module variables before any login. -/
def freshSession : Session := ⟨none, none, none⟩

/-- The one item of the example server's catalog. -/
def itemAB : EmbyItem :=
  { Id := "e1", Name := some "A", Artists := some ["B"], Album := none,
    primaryImageTag := none, AlbumPrimaryImageTag := none, RunTimeTicks := some 2000000000 }

/-- A server that accepts the login and answers every search made for user
`uid` with `itemAB`; a request for any other user is answered 404. -/
def srvAB : Server :=
  { getUserVariables := (some "h/", some "u", some "p")
    authenticate := fun _ _ _ => .ok (some ("tok", "uid"))
    getItems := fun _ userId _ _ =>
      if userId = some "uid" then .ok (some [itemAB])
      else .error ⟨some 404, none, "Request failed with status code 404"⟩ }

/-- External track number `n`, titled `A` by `B`, with its own artwork. -/
def extN (n : Nat) : MusicItem :=
  { id := "ncm-tmp-" ++ toString n, title := "A", artist := "B", album := "",
    artwork := some ("art" ++ toString n), duration := some 200, source := "ncm-import",
    ncmId := some (toString n) }

/-- An external track that the catalog of `srvAB` does not hold. -/
def extMiss : MusicItem :=
  { id := "ncm-tmp-0", title := "Z", artist := "B", album := "", artwork := some "art0",
    duration := some 200, source := "ncm-import", ncmId := some "0" }

/-- The record a match of `extN n` gives on `srvAB`. -/
def matchN (n : Nat) : MusicItem :=
  finalTrackItem (extN n) (formatEmbyMusicItem (some "http://h") itemAB)

/-- The session a successful login on `srvAB` leaves. -/
def sessionAB : Session := ⟨some "tok", some "uid", some "http://h"⟩

/-- A server that cannot be reached: the login and every search fail. -/
def srvDown : Server :=
  { getUserVariables := (some "h", some "u", some "p")
    authenticate := fun _ _ _ => .error ⟨none, none, "connect ECONNREFUSED"⟩
    getItems := fun _ _ _ _ => .error ⟨none, none, "connect ECONNREFUSED"⟩ }

/-- An environment whose playlist lists the same song seven times. -/
def envSeven : Env :=
  { toLowerCase := fun s => s
    searchMusic := fun _ => .ok []
    playlistDetail := fun _ => .ok (some [1, 1, 1, 1, 1, 1, 1])
    songDetail := fun ids =>
      .ok (some (ids.map (fun i => ⟨i, some "A", some ["B"], none, some 200000⟩))) }

/-- The external track of `envSeven`. -/
def extSeven : MusicItem :=
  formatNcmMusicItem ⟨1, some "A", some ["B"], none, some 200000⟩

/-- An external track whose search the server `srvRefusing` answers 401. -/
def extBad : MusicItem :=
  { id := "ncm-tmp-9", title := "Bad", artist := "B", album := "", artwork := some "art9",
    duration := some 200, source := "ncm-import", ncmId := some "9" }

/-- A server that answers like `srvAB`, except that it answers 401 to the
search for `extBad` and refuses every login. -/
def srvRefusing : Server :=
  { getUserVariables := (some "h/", some "u", some "p")
    authenticate := fun _ _ _ => .error ⟨some 401, none, "Request failed with status code 401"⟩
    getItems := fun _ userId searchTerm _ =>
      if searchTerm = "Bad B" then
        .error ⟨some 401, none, "Request failed with status code 401"⟩
      else if userId = some "uid" then .ok (some [itemAB])
      else .error ⟨some 404, none, "Request failed with status code 404"⟩ }

/-- An environment for the NCM side of the examples. -/
def envNcm : Env :=
  { toLowerCase := fun s => s
    searchMusic := fun _ => .ok []
    playlistDetail := fun _ => .ok (some [])
    songDetail := fun _ => .ok (some []) }

/-- An environment whose listing request throws. -/
def envListingFails : Env :=
  { toLowerCase := fun s => s
    searchMusic := fun _ => .ok []
    playlistDetail := fun _ => .error "timeout"
    songDetail := fun _ => .ok (some []) }

/-- An environment whose detail request throws for every batch. -/
def envDetailFails : Env :=
  { toLowerCase := fun s => s
    searchMusic := fun _ => .ok []
    playlistDetail := fun _ => .ok (some [1, 2, 3])
    songDetail := fun _ => .error "timeout" }

/-! ## Theorems: the scorer -/

theorem scoreLoop_perfect_first (env : Env) (t : MusicItem) (pre : List MusicItem)
    (c : MusicItem) (post : List MusicItem)
    (hpre : ∀ x ∈ pre, perfectMatch env t x = false) (hc : perfectMatch env t c = true)
    (best : Option MusicItem) (score : Int) :
    scoreLoop env t (pre ++ c :: post) best score = some c := by
  induction pre generalizing best score with
  | nil =>
    simp only [perfectMatch] at hc
    simp [scoreLoop, hc]
  | cons x xs ih =>
    have hx : perfectMatch env t x = false := hpre x (by simp)
    simp only [perfectMatch] at hx
    simp only [List.cons_append, scoreLoop, hx]
    exact ih (fun y hy => hpre y (by simp [hy])) _ _

/-- Once tier 15 is reached, only a perfect match can change the result. -/
theorem scoreLoop_at_15 (env : Env) (t : MusicItem) (l : List MusicItem)
    (hno : ∀ x ∈ l, perfectMatch env t x = false) (best : Option MusicItem) :
    scoreLoop env t l best 15 = best := by
  induction l with
  | nil => simp [scoreLoop]
  | cons x xs ih =>
    have hx : perfectMatch env t x = false := hno x (by simp)
    simp only [perfectMatch] at hx
    simp only [scoreLoop, hx]
    simpa using ih (fun y hy => hno y (by simp [hy]))

/-- At tier 10 the next title+artist candidate, if any, is the result. -/
theorem scoreLoop_at_10 (env : Env) (t : MusicItem) (l : List MusicItem)
    (hno : ∀ x ∈ l, perfectMatch env t x = false) (best : Option MusicItem) :
    scoreLoop env t l best 10 = ((l.find? (goodMatch env t)).orElse fun _ => best) := by
  induction l with
  | nil => simp [scoreLoop]
  | cons x xs ih =>
    have hx : perfectMatch env t x = false := hno x (by simp)
    have hxs : ∀ y ∈ xs, perfectMatch env t y = false := fun y hy => hno y (by simp [hy])
    simp only [perfectMatch] at hx
    simp only [scoreLoop, hx]
    by_cases hg : goodMatch env t x = true
    · have hg2 := hg
      simp only [goodMatch] at hg2
      simp [hg2, hg, List.find?_cons, scoreLoop_at_15 env t xs hxs]
    · have hg2 : goodMatch env t x = false := by simpa using hg
      have hg3 := hg2
      simp only [goodMatch] at hg3
      simp [hg3, hg2, List.find?_cons, ih hxs]

/-- From the initial score the result is the first title+artist candidate,
else the first title+duration candidate, else the running best. -/
theorem scoreLoop_at_init (env : Env) (t : MusicItem) (l : List MusicItem)
    (hno : ∀ x ∈ l, perfectMatch env t x = false) (best : Option MusicItem) :
    scoreLoop env t l best (-1) =
      ((l.find? (goodMatch env t)).orElse fun _ =>
        (l.find? (decentMatch env t)).orElse fun _ => best) := by
  induction l with
  | nil => simp [scoreLoop]
  | cons x xs ih =>
    have hx : perfectMatch env t x = false := hno x (by simp)
    have hxs : ∀ y ∈ xs, perfectMatch env t y = false := fun y hy => hno y (by simp [hy])
    simp only [perfectMatch] at hx
    simp only [scoreLoop, hx]
    by_cases hg : goodMatch env t x = true
    · have hg2 := hg
      simp only [goodMatch] at hg2
      simp [hg2, hg, List.find?_cons, scoreLoop_at_15 env t xs hxs]
    · have hg2 : goodMatch env t x = false := by simpa using hg
      have hg3 := hg2
      simp only [goodMatch] at hg3
      by_cases hd : decentMatch env t x = true
      · have hd2 := hd
        simp only [decentMatch] at hd2
        simp only [hg3, hd2, hg2, hd, List.find?_cons]
        have e1 : decide ((-1 : Int) < 10) = true := by decide
        simp only [Bool.false_and, Bool.true_and, ite_true, ite_false,
          Bool.false_eq_true, e1]
        rw [scoreLoop_at_10 env t xs hxs]
        cases List.find? (goodMatch env t) xs <;> simp
      · have hd3 : decentMatch env t x = false := by simpa using hd
        have hd2 := hd3
        simp only [decentMatch] at hd2
        simp [hg3, hd2, hg2, hd3, List.find?_cons, ih hxs]

/-- An adopted candidate is never dropped: the result of a scan that starts
with a running best is a candidate. -/
theorem scoreLoop_isSome_of_best (env : Env) (t : MusicItem) (l : List MusicItem)
    (b : MusicItem) (score : Int) : (scoreLoop env t l (some b) score).isSome = true := by
  induction l generalizing b score with
  | nil => simp [scoreLoop]
  | cons x xs ih =>
    simp only [scoreLoop]
    split
    · rfl
    · split <;> split <;> exact ih _ _

/-- The scan from the initial state is `null` exactly when no candidate has
the title together with the artist or the duration. -/
theorem bestMatchOf_eq_none_iff (env : Env) (t : MusicItem) (l : List MusicItem) :
    bestMatchOf env t l = none ↔
      ∀ c ∈ l, ¬ (titleMatch env t c = true ∧
        (artistMatch env t c = true ∨ durationMatch t c = true)) := by
  unfold bestMatchOf
  induction l with
  | nil => simp [scoreLoop]
  | cons x xs ih =>
    simp only [scoreLoop]
    cases ht : titleMatch env t x <;> cases ha : artistMatch env t x <;>
      cases hd : durationMatch t x <;> simp [ih, ht, ha, hd]
    all_goals
      intro h
      have hs := h ▸ scoreLoop_isSome_of_best env t xs x _
      simp at hs

/-- Whatever the scan returns is one of the candidates or the running best. -/
theorem scoreLoop_mem (env : Env) (t : MusicItem) (l : List MusicItem)
    (best : Option MusicItem) (score : Int) (r : MusicItem)
    (h : scoreLoop env t l best score = some r) : r ∈ l ∨ best = some r := by
  induction l generalizing best score with
  | nil => right; simpa [scoreLoop] using h
  | cons x xs ih =>
    simp only [scoreLoop] at h
    split at h
    · left; simp at h; simp [h]
    · split at h <;> split at h <;> rcases ih _ _ h with h1 | h1 <;> simp_all

theorem find?_append_cons_first {α : Type} (p : α → Bool) (pre : List α) (c : α)
    (post : List α) (hpre : ∀ x ∈ pre, p x = false) (hc : p c = true) :
    (pre ++ c :: post).find? p = some c := by
  induction pre with
  | nil => simp [List.find?_cons, hc]
  | cons x xs ih =>
    have hx : p x = false := hpre x (by simp)
    simp only [List.cons_append, List.find?_cons, hx]
    exact ih (fun y hy => hpre y (by simp [hy]))

theorem find?_none_of_all_false {α : Type} (p : α → Bool) (l : List α)
    (h : ∀ x ∈ l, p x = false) : l.find? p = none := by
  simp only [List.find?_eq_none]
  intro x hx
  simp [h x hx]

/-- C1: when some candidate has titleMatch, artistMatch and durationMatch,
the scorer loop selects the first such candidate in list order, whatever the
running best when the scan reaches it and whatever follows it; the function
then returns that candidate merged. -/
theorem C1_first_perfect_candidate_wins (env : Env) (t : MusicItem)
    (pre : List MusicItem) (c : MusicItem) (post : List MusicItem)
    (hpre : ∀ x ∈ pre, perfectMatch env t x = false)
    (hc : perfectMatch env t c = true) :
    (∀ best score, scoreLoop env t (pre ++ c :: post) best score = some c) ∧
    bestMatchOf env t (pre ++ c :: post) = some c ∧
    (env.searchMusic (searchQuery t) = .ok (pre ++ c :: post) →
      findAndMergeNcmTrackOnEmby env t = some (finalTrackItem t c)) := by
  have h := scoreLoop_perfect_first env t pre c post hpre hc
  refine ⟨h, h _ _, fun hs => ?_⟩
  simp [findAndMergeNcmTrackOnEmby, hs, bestMatchOf, h]

theorem C1_first_perfect_candidate_wins_witness :
    (∀ x ∈ [candTD, candTA], perfectMatch (envWith [candTD, candTA, candTAD, candTAD2]) extAB x
        = false) ∧
    perfectMatch (envWith [candTD, candTA, candTAD, candTAD2]) extAB candTAD = true ∧
    bestMatchOf (envWith [candTD, candTA, candTAD, candTAD2]) extAB
      ([candTD, candTA] ++ candTAD :: [candTAD2]) = some candTAD :=
  ⟨by decide, by decide,
    (C1_first_perfect_candidate_wins (envWith [candTD, candTA, candTAD, candTAD2]) extAB
      [candTD, candTA] candTAD [candTAD2] (by decide) (by decide)).2.1⟩

/-- C2: when no candidate matches on all three signals, the scorer selects
the first title+artist candidate in list order if there is one (also after
an earlier title+duration candidate was adopted), and otherwise the first
title+duration candidate if there is one; later candidates of the same tier
do not displace it. -/
theorem C2_first_of_best_tier_wins (env : Env) (t : MusicItem) (cands : List MusicItem)
    (hno : ∀ x ∈ cands, perfectMatch env t x = false) :
    (∀ pre c post, cands = pre ++ c :: post →
      (∀ x ∈ pre, goodMatch env t x = false) → goodMatch env t c = true →
      bestMatchOf env t cands = some c) ∧
    ((∀ x ∈ cands, goodMatch env t x = false) →
      ∀ pre c post, cands = pre ++ c :: post →
        (∀ x ∈ pre, decentMatch env t x = false) → decentMatch env t c = true →
        bestMatchOf env t cands = some c) := by
  have h := scoreLoop_at_init env t cands hno none
  constructor
  · intro pre c post hl hpre hc
    unfold bestMatchOf
    rw [h, hl, find?_append_cons_first _ pre c post hpre hc]
    rfl
  · intro hng pre c post hl hpre hc
    unfold bestMatchOf
    rw [h, find?_none_of_all_false _ cands hng, hl,
      find?_append_cons_first _ pre c post hpre hc]
    rfl

theorem C2_first_of_best_tier_wins_witness :
    (∀ x ∈ [candT, candTD, candTA, candTA2], perfectMatch (envWith []) extAB x = false) ∧
    bestMatchOf (envWith []) extAB [candT, candTD, candTA, candTA2] = some candTA :=
  ⟨by decide,
    (C2_first_of_best_tier_wins (envWith []) extAB [candT, candTD, candTA, candTA2]
      (by decide)).1 [candT, candTD] candTA [candTA2] rfl (by decide) (by decide)⟩

/-- C3: for the candidate list the search returned, the function returns
null exactly when no candidate has titleMatch together with artistMatch or
durationMatch; so it returns null for the empty list, for candidates that
match on title only, and for candidates that match on artist and duration
only. -/
theorem C3_null_iff_no_title_pair (env : Env) (t : MusicItem) (cands : List MusicItem)
    (hs : env.searchMusic (searchQuery t) = .ok cands) :
    (findAndMergeNcmTrackOnEmby env t = none ↔
      ∀ c ∈ cands, ¬ (titleMatch env t c = true ∧
        (artistMatch env t c = true ∨ durationMatch t c = true))) ∧
    (cands = [] → findAndMergeNcmTrackOnEmby env t = none) ∧
    ((∀ c ∈ cands, artistMatch env t c = false ∧ durationMatch t c = false) →
      findAndMergeNcmTrackOnEmby env t = none) ∧
    ((∀ c ∈ cands, titleMatch env t c = false) →
      findAndMergeNcmTrackOnEmby env t = none) := by
  have key : findAndMergeNcmTrackOnEmby env t = none ↔
      ∀ c ∈ cands, ¬ (titleMatch env t c = true ∧
        (artistMatch env t c = true ∨ durationMatch t c = true)) := by
    rw [← bestMatchOf_eq_none_iff]
    unfold findAndMergeNcmTrackOnEmby
    rw [hs]
    cases cands with
    | nil => simp [bestMatchOf, scoreLoop]
    | cons x xs =>
      cases hb : bestMatchOf env t (x :: xs) <;> simp [hb]
  refine ⟨key, ?_, ?_, ?_⟩
  · intro he
    rw [key, he]
    simp
  · intro h
    rw [key]
    intro c hc hcontra
    have := h c hc
    rcases hcontra with ⟨_, h1 | h1⟩ <;> simp_all
  · intro h
    rw [key]
    intro c hc hcontra
    have := h c hc
    simp_all

theorem C3_null_iff_no_title_pair_witness :
    (envWith [candT, candAD]).searchMusic (searchQuery extAB) = .ok [candT, candAD] ∧
    findAndMergeNcmTrackOnEmby (envWith [candT, candAD]) extAB = none :=
  ⟨rfl,
    (C3_null_iff_no_title_pair (envWith [candT, candAD]) extAB [candT, candAD] rfl).1.2
      (by decide)⟩

/-- C6: a non-null result for external track `t` takes id, title, artist,
album and duration from one candidate of the search result, its artwork
from `t`, and has `_source` equal to `emby_ncm_artwork`. -/
theorem C6_merged_record_provenance (env : Env) (t r : MusicItem)
    (h : findAndMergeNcmTrackOnEmby env t = some r) :
    ∃ cands c, env.searchMusic (searchQuery t) = .ok cands ∧ c ∈ cands ∧
      r.id = c.id ∧ r.title = c.title ∧ r.artist = c.artist ∧ r.album = c.album ∧
      r.duration = c.duration ∧ r.artwork = t.artwork ∧ r.source = "emby_ncm_artwork" := by
  unfold findAndMergeNcmTrackOnEmby at h
  cases hs : env.searchMusic (searchQuery t) with
  | error e => simp [hs] at h
  | ok data =>
    rw [hs] at h
    simp only at h
    split at h
    · simp at h
    · cases hb : bestMatchOf env t data with
      | none => simp [hb] at h
      | some b =>
        rw [hb] at h
        simp only [Option.some.injEq] at h
        subst h
        refine ⟨data, b, rfl, ?_, rfl, rfl, rfl, rfl, rfl, rfl, rfl⟩
        rcases scoreLoop_mem env t data none (-1) b hb with h1 | h1
        · exact h1
        · simp at h1

theorem C6_merged_record_provenance_witness :
    findAndMergeNcmTrackOnEmby (envWith [candT, candTAD]) extAB
      = some (finalTrackItem extAB candTAD) ∧
    ∃ cands c, (envWith [candT, candTAD]).searchMusic (searchQuery extAB) = .ok cands ∧
      c ∈ cands ∧
      (finalTrackItem extAB candTAD).id = c.id ∧
      (finalTrackItem extAB candTAD).title = c.title ∧
      (finalTrackItem extAB candTAD).artist = c.artist ∧
      (finalTrackItem extAB candTAD).album = c.album ∧
      (finalTrackItem extAB candTAD).duration = c.duration ∧
      (finalTrackItem extAB candTAD).artwork = extAB.artwork ∧
      (finalTrackItem extAB candTAD).source = "emby_ncm_artwork" :=
  ⟨by decide,
    C6_merged_record_provenance (envWith [candT, candTAD]) extAB
      (finalTrackItem extAB candTAD) (by decide)⟩

/-! ## Theorems: the reference pattern -/

theorem first_seq (r₁ r₂ : Re) (s s₁ s₂ : Cursor) (h₁ : Re.first r₁ s = some s₁)
    (h₂ : Re.first r₂ s₁ = some s₂) : Re.first (.seq r₁ r₂) s = some s₂ := by
  unfold Re.first at *
  simp only [Re.run]
  cases h : Re.run r₁ s with
  | nil => simp [h] at h₁
  | cons x tl =>
    rw [h] at h₁
    simp only [List.head?_cons, Option.some.injEq] at h₁
    subst h₁
    cases h' : Re.run r₂ x with
    | nil => simp [h'] at h₂
    | cons y tl' =>
      rw [h'] at h₂
      simp only [List.head?_cons, Option.some.injEq] at h₂
      subst h₂
      simp [List.flatMap_cons, h']

theorem first_cat_cons (r : Re) (rs : List Re) (s s₁ s₂ : Cursor)
    (h₁ : Re.first r s = some s₁) (h₂ : Re.first (Re.cat rs) s₁ = some s₂) :
    Re.first (Re.cat (r :: rs)) s = some s₂ :=
  first_seq r (Re.cat rs) s s₁ s₂ h₁ h₂

theorem first_cat_nil (s : Cursor) : Re.first (Re.cat []) s = some s := rfl

theorem first_unit_atoms (cs : List Char) (p : Nat) (rest : JSString)
    (caps : List (Nat × JSString)) :
    Re.first (Re.cat (cs.map (fun c => Re.atom (.unit c.toNat))))
      ⟨p, cs.map Char.toNat ++ rest, caps⟩ = some ⟨p + cs.length, rest, caps⟩ := by
  induction cs generalizing p with
  | nil => rfl
  | cons c cs ih =>
    refine first_cat_cons _ _ _ ⟨p + 1, cs.map Char.toNat ++ rest, caps⟩ _ ?_ ?_
    · simp [Re.first, Re.run, Atom.test]
    · rw [ih (p + 1)]
      simp only [List.length_cons, Option.some.injEq, Cursor.mk.injEq, and_true]
      omega

theorem first_lits (str : String) (p : Nat) (rest : JSString)
    (caps : List (Nat × JSString)) :
    Re.first (Re.lits str) ⟨p, lit str ++ rest, caps⟩
      = some ⟨p + str.length, rest, caps⟩ :=
  first_unit_atoms str.toList p rest caps

theorem starRun_greedy (a : Atom) (caps : List (Nat × JSString)) (xs rest : JSString)
    (hxs : ∀ c ∈ xs, a.test c = true) (hrest : ∀ c ∈ rest.head?, a.test c = false)
    (p : Nat) :
    ∃ tl, starRun a caps p (xs ++ rest) = ⟨p + xs.length, rest, caps⟩ :: tl := by
  induction xs generalizing p with
  | nil =>
    cases rest with
    | nil => exact ⟨[], by simp [starRun]⟩
    | cons c cs =>
      have hc : a.test c = false := hrest c (by simp)
      exact ⟨[], by simp [starRun, hc]⟩
  | cons x xs ih =>
    obtain ⟨tl, h⟩ := ih (fun c hc => hxs c (by simp [hc])) (p + 1)
    have hx : a.test x = true := hxs x (by simp)
    refine ⟨tl ++ [⟨p, x :: (xs ++ rest), caps⟩], ?_⟩
    simp only [List.cons_append, starRun, hx, ite_true, List.append_eq, h,
      List.length_cons, List.cons.injEq, Cursor.mk.injEq, and_true, true_and]
    omega

theorem first_star (a : Atom) (caps : List (Nat × JSString)) (xs rest : JSString)
    (hxs : ∀ c ∈ xs, a.test c = true) (hrest : ∀ c ∈ rest.head?, a.test c = false)
    (p : Nat) :
    Re.first (.star a) ⟨p, xs ++ rest, caps⟩ = some ⟨p + xs.length, rest, caps⟩ := by
  obtain ⟨tl, h⟩ := starRun_greedy a caps xs rest hxs hrest p
  simp [Re.first, Re.run, h]

theorem first_plus (a : Atom) (caps : List (Nat × JSString)) (xs rest : JSString)
    (hne : xs ≠ []) (hxs : ∀ c ∈ xs, a.test c = true)
    (hrest : ∀ c ∈ rest.head?, a.test c = false) (p : Nat) :
    Re.first (.plus a) ⟨p, xs ++ rest, caps⟩ = some ⟨p + xs.length, rest, caps⟩ := by
  cases xs with
  | nil => exact absurd rfl hne
  | cons x xs =>
    obtain ⟨tl, h⟩ := starRun_greedy a caps xs rest (fun c hc => hxs c (by simp [hc])) hrest
      (p + 1)
    have hx : a.test x = true := hxs x (by simp)
    simp only [Re.first, Re.run, List.cons_append, hx, ite_true, List.append_eq, h,
      List.head?_cons, List.length_cons, Option.some.injEq, Cursor.mk.injEq, and_true]
    omega

theorem first_group (n : Nat) (r : Re) (s s₁ : Cursor) (h : Re.first r s = some s₁) :
    Re.first (.group n r) s
      = some { s₁ with caps := (n, s.rest.take (s₁.pos - s.pos)) :: s₁.caps } := by
  unfold Re.first at *
  cases h' : Re.run r s with
  | nil => simp [h'] at h
  | cons x tl =>
    rw [h'] at h
    simp only [List.head?_cons, Option.some.injEq] at h
    subst h
    simp [Re.run, h']

/-- The capturing group `([0-9]+)` on a run of digits followed by a non-digit
or by the end captures the whole run. -/
theorem first_group_digits (n p : Nat) (caps : List (Nat × JSString)) (d rest : JSString)
    (hne : d ≠ []) (hd : ∀ c ∈ d, isDigit c = true)
    (hrest : ∀ c ∈ rest.head?, isDigit c = false) :
    Re.first (.group n (.plus .digit)) ⟨p, d ++ rest, caps⟩
      = some ⟨p + d.length, rest, (n, d) :: caps⟩ := by
  rw [first_group n _ _ _ (first_plus .digit caps d rest hne hd hrest p)]
  simp

theorem first_opt_take (r : Re) (s s₁ : Cursor) (h : Re.first r s = some s₁) :
    Re.first (.opt r) s = some s₁ := by
  unfold Re.first at *
  cases h' : Re.run r s with
  | nil => simp [h'] at h
  | cons x tl =>
    rw [h'] at h
    simpa [Re.run, h'] using h

theorem first_opt_skip (r : Re) (s : Cursor) (h : Re.run r s = []) :
    Re.first (.opt r) s = some s := by
  simp [Re.first, Re.run, h]

theorem first_star_total (a : Atom) (s : Cursor) :
    ∃ s₁, Re.first (.star a) s = some s₁ ∧ s₁.caps = s.caps := by
  obtain ⟨p, l, caps⟩ := s
  simp only [Re.first, Re.run]
  induction l generalizing p with
  | nil => exact ⟨_, rfl, rfl⟩
  | cons c cs ih =>
    by_cases hc : a.test c = true
    · obtain ⟨s₁, h₁, h₂⟩ := ih (p + 1)
      refine ⟨s₁, ?_, h₂⟩
      simp only [starRun, hc, ite_true]
      cases h' : starRun a caps (p + 1) cs with
      | nil => simp [h'] at h₁
      | cons y tl => simpa [h'] using h₁
    · exact ⟨⟨p, c :: cs, caps⟩, by simp [starRun, hc], rfl⟩

theorem execFrom_of_first (re : Re) (pos : Nat) (l : JSString) (m : Cursor)
    (h : Re.first re ⟨pos, l, []⟩ = some m) : execFrom re pos l = some m := by
  unfold Re.first at h
  cases l with
  | nil => simpa [execFrom] using h
  | cons c cs => simp [execFrom, h]
theorem first_atom (a : Atom) (c p : Nat) (rest : JSString) (caps : List (Nat × JSString))
    (h : a.test c = true) :
    Re.first (.atom a) ⟨p, c :: rest, caps⟩ = some ⟨p + 1, rest, caps⟩ := by
  simp [Re.first, Re.run, h]

theorem first_alt_left (r₁ r₂ : Re) (s m : Cursor) (h : Re.first r₁ s = some m) :
    Re.first (.alt r₁ r₂) s = some m := by
  unfold Re.first at *
  cases h' : Re.run r₁ s with
  | nil => simp [h'] at h
  | cons x tl =>
    rw [h'] at h
    simpa [Re.run, h'] using h

theorem first_alt_right (r₁ r₂ : Re) (s : Cursor) (h : Re.run r₁ s = []) :
    Re.first (.alt r₁ r₂) s = Re.first r₂ s := by
  simp [Re.first, Re.run, h]

/-- A pattern that starts with a literal code unit fails where the subject
does not continue with that code unit. -/
theorem run_fail_lead (u : Nat) (Y X : Re) (s : Cursor) (h : ∀ c ∈ s.rest.head?, c ≠ u) :
    Re.run (.seq (.seq (.atom (.unit u)) Y) X) s = [] := by
  obtain ⟨p, l, caps⟩ := s
  cases l with
  | nil => simp [Re.run]
  | cons c cs =>
    have hc : c ≠ u := h c (by simp)
    simp [Re.run, Atom.test, hc]

theorem isWhiteSpace_of_isDigit (c : Nat) (h : isDigit c = true) : isWhiteSpace c = false := by
  simp only [isDigit, Bool.and_eq_true, decide_eq_true_eq] at h
  simp only [isWhiteSpace, Bool.or_eq_false_iff, beq_eq_false_iff_ne, ne_eq,
    Bool.and_eq_false_imp, decide_eq_true_eq, decide_eq_false_iff_not]
  omega

theorem isDigit_of_isWhiteSpace (c : Nat) (h : isWhiteSpace c = true) : isDigit c = false := by
  cases hd : isDigit c with
  | false => rfl
  | true => rw [isWhiteSpace_of_isDigit c hd] at h; exact absurd h (by simp)

theorem extractId_single (q : Nat) (rest : JSString) (k : Nat) (d : JSString)
    (hk : k = 1 ∨ k = 2 ∨ k = 3 ∨ k = 4) (hne : d ≠ []) :
    extractId ⟨q, rest, [(k, d)]⟩ = some d := by
  cases d with
  | nil => exact absurd rfl hne
  | cons c cs =>
    rcases hk with h | h | h | h <;> subst h <;> rfl

theorem resolveNcmId_of_first (urlLike : JSString) (m : Cursor) (k : Nat) (d : JSString)
    (hk : k = 1 ∨ k = 2 ∨ k = 3 ∨ k = 4) (hne : d ≠ [])
    (h : Re.first ncmPattern ⟨0, urlLike, []⟩ = some m) (hcaps : m.caps = [(k, d)]) :
    resolveNcmId urlLike = .ok d := by
  obtain ⟨q, rest, caps⟩ := m
  simp only at hcaps
  subst hcaps
  simp [resolveNcmId, jsMatch, execFrom_of_first _ _ _ _ h, extractId_single q rest k d hk hne]

theorem head?_digits_append (d rest : JSString) (hne : d ≠ [])
    (hd : ∀ c ∈ d, isDigit c = true) : ∀ c ∈ (d ++ rest).head?, isDigit c = true := by
  cases d with
  | nil => exact absurd rfl hne
  | cons x xs =>
    intro c hc
    simp only [List.cons_append, List.head?_cons, Option.mem_def, Option.some.injEq] at hc
    subst hc
    exact hd _ (by simp)

/-- Shape (a): the short-link host. -/
theorem first_shapeA (d rest : JSString) (hne : d ≠ []) (hd : ∀ c ∈ d, isDigit c = true)
    (hrest : ∀ c ∈ rest.head?, isDigit c = false) :
    ∃ q, Re.first shapeA ⟨0, lit "https://y.music.163.com/m/playlist?id=" ++ (d ++ rest), []⟩
      = some ⟨q, rest, [(1, d)]⟩ :=
  ⟨_, first_cat_cons _ _ _ _ _
    (first_lits "https://y.music.163" 0 (46 :: (lit "com/m/playlist?id=" ++ (d ++ rest))) [])
    (first_cat_cons _ _ _ _ _ (first_atom .dot 46 _ _ _ rfl)
      (first_cat_cons _ _ _ _ _ (first_lits "com/m/playlist?id=" _ (d ++ rest) [])
        (first_cat_cons _ _ _ _ _ (first_group_digits 1 _ [] d rest hne hd hrest)
          (first_cat_nil _))))⟩
theorem run_unit_atoms (cs : List Char) (p : Nat) (rest : JSString)
    (caps : List (Nat × JSString)) :
    Re.run (Re.cat (cs.map (fun c => Re.atom (.unit c.toNat)))) ⟨p, rest, caps⟩ =
      if (cs.map Char.toNat).isPrefixOf rest = true
      then [⟨p + cs.length, rest.drop cs.length, caps⟩] else [] := by
  induction cs generalizing p rest with
  | nil => simp [Re.cat, Re.run]
  | cons c cs ih =>
    cases rest with
    | nil => simp [Re.cat, Re.run]
    | cons r rs =>
      by_cases hr : r = c.toNat
      · subst hr
        simp only [List.map_cons, Re.cat, Re.run, Atom.test, beq_self_eq_true, ite_true,
          List.flatMap_cons, List.flatMap_nil, List.append_nil, ih, List.isPrefixOf,
          Bool.true_and, List.length_cons, List.drop_succ_cons]
        have e : p + 1 + cs.length = p + (cs.length + 1) := by omega
        rw [e]
      · have h1 : (r == c.toNat) = false := by simpa using hr
        have h2 : (c.toNat == r) = false := by simpa using fun h => hr h.symm
        simp [Re.cat, Re.run, Atom.test, h1, h2, List.isPrefixOf]

theorem run_lits (str : String) (p : Nat) (rest : JSString) (caps : List (Nat × JSString)) :
    Re.run (Re.lits str) ⟨p, rest, caps⟩ =
      if (lit str).isPrefixOf rest = true
      then [⟨p + str.length, rest.drop str.length, caps⟩] else [] :=
  run_unit_atoms str.toList p rest caps

theorem isPrefixOf_append_left (a b s : JSString) :
    (a ++ b).isPrefixOf s = (a.isPrefixOf s && b.isPrefixOf (s.drop a.length)) := by
  induction a generalizing s with
  | nil => simp
  | cons x xs ih =>
    cases s with
    | nil => simp [List.isPrefixOf]
    | cons y ys => simp [List.isPrefixOf, ih, Bool.and_assoc]

theorem run_cat_cons (r : Re) (rs : List Re) (s : Cursor) :
    Re.run (Re.cat (r :: rs)) s = (Re.run r s).flatMap (fun s₁ => Re.run (Re.cat rs) s₁) :=
  rfl

theorem run_lits_fail (str : String) (s : Cursor)
    (h : (lit str).isPrefixOf s.rest = false) : Re.run (Re.lits str) s = [] := by
  obtain ⟨p, rest, caps⟩ := s
  rw [run_lits]
  simp only at h
  rw [h]
  rfl

theorem run_cat_fail_head (r : Re) (rs : List Re) (s : Cursor) (h : Re.run r s = []) :
    Re.run (Re.cat (r :: rs)) s = [] := by
  rw [run_cat_cons, h]
  rfl

/-- The short-link alternative matches only where the subject continues with
its literal head. -/
theorem run_shapeA_fail (s : Cursor)
    (h : (lit "https://y.music.163").isPrefixOf s.rest = false) : Re.run shapeA s = [] :=
  run_cat_fail_head _ _ s (run_lits_fail _ s h)

/-- The path-style alternative matches only where the subject continues with
`http://music.163.com/playlist/` or `https://music.163.com/playlist/`. -/
theorem run_shapeB_fail (s : Cursor)
    (h₁ : (lit "http://music.163.com/playlist/").isPrefixOf s.rest = false)
    (h₂ : (lit "https://music.163.com/playlist/").isPrefixOf s.rest = false) :
    Re.run shapeB s = [] := by
  obtain ⟨p, rest, caps⟩ := s
  have e₁ : lit "http://music.163.com/playlist/"
      = lit "http" ++ lit "://music.163.com/playlist/" := rfl
  have e₂ : lit "https://music.163.com/playlist/"
      = lit "http" ++ (lit "s" ++ lit "://music.163.com/playlist/") := rfl
  have l₁ : (lit "http").length = "http".length := rfl
  have l₂ : (lit "s").length = "s".length := rfl
  rw [e₁, isPrefixOf_append_left, l₁] at h₁
  rw [e₂, isPrefixOf_append_left, isPrefixOf_append_left, l₁, l₂] at h₂
  unfold shapeB
  rw [run_cat_cons, run_lits]
  cases c₁ : (lit "http").isPrefixOf rest
  · rfl
  · rw [c₁, Bool.true_and] at h₁ h₂
    rw [if_pos rfl, List.flatMap_cons, List.flatMap_nil, List.append_nil, run_cat_cons]
    have hskip : Re.run (Re.cat [Re.lits "://music.163.com/playlist/",
        .group 2 (.plus .digit), Re.lits "/", .star .dot])
        ⟨p + "http".length, List.drop "http".length rest, caps⟩ = [] :=
      run_cat_fail_head _ _ _ (run_lits_fail _ _ h₁)
    cases c₂ : (lit "s").isPrefixOf (List.drop "http".length rest)
    · rw [show Re.run (.opt (Re.lits "s"))
          ⟨p + "http".length, List.drop "http".length rest, caps⟩
          = [⟨p + "http".length, List.drop "http".length rest, caps⟩] from by
        rw [Re.run, run_lits_fail _ _ c₂]; rfl]
      rw [List.flatMap_cons, List.flatMap_nil, List.append_nil, hskip]
    · rw [c₂, Bool.true_and] at h₂
      rw [show Re.run (.opt (Re.lits "s"))
          ⟨p + "http".length, List.drop "http".length rest, caps⟩
          = [⟨p + "http".length + "s".length,
              List.drop "s".length (List.drop "http".length rest), caps⟩,
            ⟨p + "http".length, List.drop "http".length rest, caps⟩] from by
        rw [Re.run, run_lits, c₂]; rfl]
      rw [List.flatMap_cons, List.flatMap_cons, List.flatMap_nil, List.append_nil, hskip,
        List.append_nil]
      exact run_cat_fail_head _ _ _ (run_lits_fail _ _ h₂)
/-- Shape (b), the path-style link, after `http` and the optional `s`. -/
theorem first_shapeB_tail (p : Nat) (d tail : JSString) (hne : d ≠ [])
    (hd : ∀ c ∈ d, isDigit c = true) :
    ∃ m, Re.first (Re.cat [Re.lits "://music.163.com/playlist/", .group 2 (.plus .digit),
        Re.lits "/", .star .dot])
      ⟨p, lit "://music.163.com/playlist/" ++ (d ++ (lit "/" ++ tail)), []⟩ = some m ∧
      m.caps = [(2, d)] := by
  obtain ⟨m, hm, hc⟩ := first_star_total .dot
    ⟨p + "://music.163.com/playlist/".length + d.length + "/".length, tail, [(2, d)]⟩
  refine ⟨m, ?_, hc⟩
  have hrest : ∀ c ∈ (lit "/" ++ tail).head?, isDigit c = false := by
    intro c hc
    have h47 : c = 47 := (Option.some.inj hc).symm
    subst h47
    rfl
  exact first_cat_cons _ _ _ _ _ (first_lits "://music.163.com/playlist/" p _ [])
    (first_cat_cons _ _ _ _ _ (first_group_digits 2 _ [] d (lit "/" ++ tail) hne hd hrest)
      (first_cat_cons _ _ _ _ _ (first_lits "/" _ tail _)
        (first_cat_cons _ _ _ _ _ hm (first_cat_nil _))))

theorem first_shapeB_http (d tail : JSString) (hne : d ≠ [])
    (hd : ∀ c ∈ d, isDigit c = true) :
    ∃ m, Re.first shapeB
      ⟨0, lit "http://music.163.com/playlist/" ++ (d ++ (lit "/" ++ tail)), []⟩ = some m ∧
      m.caps = [(2, d)] := by
  obtain ⟨m, hm, hc⟩ := first_shapeB_tail (0 + "http".length) d tail hne hd
  exact ⟨m, first_cat_cons _ _ _ _ _
    (first_lits "http" 0 (lit "://music.163.com/playlist/" ++ (d ++ (lit "/" ++ tail))) [])
    (first_cat_cons _ _ _ _ _ (first_opt_skip _ _ rfl) hm), hc⟩

theorem first_shapeB_https (d tail : JSString) (hne : d ≠ [])
    (hd : ∀ c ∈ d, isDigit c = true) :
    ∃ m, Re.first shapeB
      ⟨0, lit "https://music.163.com/playlist/" ++ (d ++ (lit "/" ++ tail)), []⟩ = some m ∧
      m.caps = [(2, d)] := by
  obtain ⟨m, hm, hc⟩ := first_shapeB_tail (0 + "http".length + "s".length) d tail hne hd
  exact ⟨m, first_cat_cons _ _ _ _ _
    (first_lits "http" 0
      (lit "s" ++ (lit "://music.163.com/playlist/" ++ (d ++ (lit "/" ++ tail)))) [])
    (first_cat_cons _ _ _ _ _ (first_opt_take _ _ _ (first_lits "s" _ _ _)) hm), hc⟩

/-- Shape (c), the canonical host, from `/playlist?id=` on. -/
theorem first_shapeC_tail (p : Nat) (d : JSString) (hne : d ≠ [])
    (hd : ∀ c ∈ d, isDigit c = true) :
    Re.first (Re.cat [Re.lits "/playlist?id=", .group 3 (.plus .digit)])
      ⟨p, lit "/playlist?id=" ++ (d ++ []), []⟩
      = some ⟨p + "/playlist?id=".length + d.length, [], [(3, d)]⟩ :=
  first_cat_cons _ _ _ _ _ (first_lits "/playlist?id=" p _ [])
    (first_cat_cons _ _ _ _ _
      (first_group_digits 3 _ [] d [] hne hd (fun c hc => absurd hc (by simp)))
      (first_cat_nil _))

/-- Shape (c) from the host on, without the hash segment. -/
theorem first_shapeC_host (p : Nat) (d : JSString) (hne : d ≠ [])
    (hd : ∀ c ∈ d, isDigit c = true) :
    ∃ q, Re.first (Re.cat [Re.lits "://music", .atom .dot, Re.lits "163", .atom .dot,
        Re.lits "com", .opt (Re.lits "/#"), Re.lits "/playlist?id=",
        .group 3 (.plus .digit)])
      ⟨p, lit "://music" ++ (46 :: (lit "163" ++ (46 :: (lit "com" ++
        (lit "/playlist?id=" ++ (d ++ [])))))), []⟩ = some ⟨q, [], [(3, d)]⟩ := by
  apply Exists.intro
  refine first_cat_cons _ _ _ _ _ (first_lits "://music" p _ []) ?_
  refine first_cat_cons _ _ _ _ _ (first_atom .dot 46 _ _ _ rfl) ?_
  refine first_cat_cons _ _ _ _ _ (first_lits "163" _ _ _) ?_
  refine first_cat_cons _ _ _ _ _ (first_atom .dot 46 _ _ _ rfl) ?_
  refine first_cat_cons _ _ _ _ _ (first_lits "com" _ _ _) ?_
  refine first_cat_cons _ _ _ _ _ (first_opt_skip _ _ ?_) ?_
  · rfl
  · exact first_shapeC_tail _ d hne hd

/-- Shape (c) from the host on, with the hash segment. -/
theorem first_shapeC_host_hash (p : Nat) (d : JSString) (hne : d ≠ [])
    (hd : ∀ c ∈ d, isDigit c = true) :
    ∃ q, Re.first (Re.cat [Re.lits "://music", .atom .dot, Re.lits "163", .atom .dot,
        Re.lits "com", .opt (Re.lits "/#"), Re.lits "/playlist?id=",
        .group 3 (.plus .digit)])
      ⟨p, lit "://music" ++ (46 :: (lit "163" ++ (46 :: (lit "com" ++
        (lit "/#" ++ (lit "/playlist?id=" ++ (d ++ []))))))), []⟩
        = some ⟨q, [], [(3, d)]⟩ := by
  apply Exists.intro
  refine first_cat_cons _ _ _ _ _ (first_lits "://music" p _ []) ?_
  refine first_cat_cons _ _ _ _ _ (first_atom .dot 46 _ _ _ rfl) ?_
  refine first_cat_cons _ _ _ _ _ (first_lits "163" _ _ _) ?_
  refine first_cat_cons _ _ _ _ _ (first_atom .dot 46 _ _ _ rfl) ?_
  refine first_cat_cons _ _ _ _ _ (first_lits "com" _ _ _) ?_
  refine first_cat_cons _ _ _ _ _ (first_opt_take _ _ _ (first_lits "/#" _ _ _)) ?_
  exact first_shapeC_tail _ d hne hd

theorem first_shapeC (d : JSString) (hne : d ≠ []) (hd : ∀ c ∈ d, isDigit c = true) :
    (∃ q, Re.first shapeC ⟨0, lit "http://music.163.com/playlist?id=" ++ (d ++ []), []⟩
      = some ⟨q, [], [(3, d)]⟩) ∧
    (∃ q, Re.first shapeC ⟨0, lit "https://music.163.com/playlist?id=" ++ (d ++ []), []⟩
      = some ⟨q, [], [(3, d)]⟩) ∧
    (∃ q, Re.first shapeC ⟨0, lit "http://music.163.com/#/playlist?id=" ++ (d ++ []), []⟩
      = some ⟨q, [], [(3, d)]⟩) ∧
    (∃ q, Re.first shapeC ⟨0, lit "https://music.163.com/#/playlist?id=" ++ (d ++ []), []⟩
      = some ⟨q, [], [(3, d)]⟩) := by
  obtain ⟨q₁, h₁⟩ := first_shapeC_host (0 + "http".length) d hne hd
  obtain ⟨q₂, h₂⟩ := first_shapeC_host_hash (0 + "http".length) d hne hd
  obtain ⟨q₃, h₃⟩ := first_shapeC_host (0 + "http".length + "s".length) d hne hd
  obtain ⟨q₄, h₄⟩ := first_shapeC_host_hash (0 + "http".length + "s".length) d hne hd
  refine ⟨⟨q₁, ?_⟩, ⟨q₃, ?_⟩, ⟨q₂, ?_⟩, ⟨q₄, ?_⟩⟩
  · rw [show lit "http://music.163.com/playlist?id=" ++ (d ++ []) =
      lit "http" ++ (lit "://music" ++ (46 :: (lit "163" ++ (46 :: (lit "com" ++
        (lit "/playlist?id=" ++ (d ++ []))))))) from rfl]
    unfold shapeC
    refine first_cat_cons _ _ _ _ _ (first_lits "http" 0 _ []) ?_
    refine first_cat_cons _ _ _ _ _ (first_opt_skip _ _ ?_) h₁
    rfl
  · rw [show lit "https://music.163.com/playlist?id=" ++ (d ++ []) =
      lit "http" ++ (lit "s" ++ (lit "://music" ++ (46 :: (lit "163" ++ (46 :: (lit "com" ++
        (lit "/playlist?id=" ++ (d ++ [])))))))) from rfl]
    unfold shapeC
    refine first_cat_cons _ _ _ _ _ (first_lits "http" 0 _ []) ?_
    exact first_cat_cons _ _ _ _ _ (first_opt_take _ _ _ (first_lits "s" _ _ _)) h₃
  · rw [show lit "http://music.163.com/#/playlist?id=" ++ (d ++ []) =
      lit "http" ++ (lit "://music" ++ (46 :: (lit "163" ++ (46 :: (lit "com" ++
        (lit "/#" ++ (lit "/playlist?id=" ++ (d ++ [])))))))) from rfl]
    unfold shapeC
    refine first_cat_cons _ _ _ _ _ (first_lits "http" 0 _ []) ?_
    refine first_cat_cons _ _ _ _ _ (first_opt_skip _ _ ?_) h₂
    rfl
  · rw [show lit "https://music.163.com/#/playlist?id=" ++ (d ++ []) =
      lit "http" ++ (lit "s" ++ (lit "://music" ++ (46 :: (lit "163" ++ (46 :: (lit "com" ++
        (lit "/#" ++ (lit "/playlist?id=" ++ (d ++ []))))))))) from rfl]
    unfold shapeC
    refine first_cat_cons _ _ _ _ _ (first_lits "http" 0 _ []) ?_
    exact first_cat_cons _ _ _ _ _ (first_opt_take _ _ _ (first_lits "s" _ _ _)) h₄

/-- Shape (d): bare digits between white space. -/
theorem first_shapeD (ws d ws' : JSString) (hne : d ≠ []) (hd : ∀ c ∈ d, isDigit c = true)
    (hws : ∀ c ∈ ws, isWhiteSpace c = true) (hws' : ∀ c ∈ ws', isWhiteSpace c = true) :
    ∃ q, Re.first shapeD ⟨0, ws ++ (d ++ (ws' ++ [])), []⟩ = some ⟨q, [], [(4, d)]⟩ := by
  have h1 : ∀ c ∈ (d ++ (ws' ++ [])).head?, Atom.space.test c = false := fun c hc =>
    isWhiteSpace_of_isDigit c (head?_digits_append d _ hne hd c hc)
  have h2 : ∀ c ∈ (ws' ++ []).head?, isDigit c = false := by
    intro c hc
    apply isDigit_of_isWhiteSpace
    apply hws'
    rw [List.append_nil] at hc
    exact List.mem_of_mem_head? hc
  exact ⟨_, first_cat_cons _ _ _ ⟨0, ws ++ (d ++ (ws' ++ [])), []⟩ _ rfl
    (first_cat_cons _ _ _ _ _ (first_star .space [] ws _ hws h1 0)
      (first_cat_cons _ _ _ _ _ (first_group_digits 4 _ [] d _ hne hd h2)
        (first_cat_cons _ _ _ _ _
          (first_star .space _ ws' [] hws' (fun c hc => absurd hc (by simp)) _)
          (first_cat_cons _ _ _ _ _ rfl (first_cat_nil _)))))⟩
theorem head?_ws_digits (ws d rest : JSString) (hne : d ≠ [])
    (hd : ∀ c ∈ d, isDigit c = true) (hws : ∀ c ∈ ws, isWhiteSpace c = true) :
    ∀ c ∈ (ws ++ (d ++ rest)).head?, c ≠ 104 := by
  intro c hc h104
  subst h104
  cases ws with
  | nil =>
    have := head?_digits_append d rest hne hd 104 hc
    exact absurd this (by decide)
  | cons x xs =>
    simp only [List.cons_append, List.head?_cons, Option.mem_def, Option.some.injEq] at hc
    subst hc
    have := hws 104 (by simp)
    exact absurd this (by decide)

theorem resolveNcmId_of_shapeB (subject : JSString) (d : JSString) (hne : d ≠ [])
    (hA : Re.run shapeA ⟨0, subject, []⟩ = [])
    (h : ∃ m, Re.first shapeB ⟨0, subject, []⟩ = some m ∧ m.caps = [(2, d)]) :
    resolveNcmId subject = .ok d := by
  obtain ⟨m, hm, hc⟩ := h
  refine resolveNcmId_of_first subject m 2 d (by simp) hne ?_ hc
  unfold ncmPattern
  rw [first_alt_right _ _ _ hA]
  exact first_alt_left _ _ _ _ hm

theorem resolveNcmId_of_shapeC (subject : JSString) (d : JSString) (hne : d ≠ [])
    (hA : Re.run shapeA ⟨0, subject, []⟩ = []) (hB : Re.run shapeB ⟨0, subject, []⟩ = [])
    (h : ∃ q, Re.first shapeC ⟨0, subject, []⟩ = some ⟨q, [], [(3, d)]⟩) :
    resolveNcmId subject = .ok d := by
  obtain ⟨q, hq⟩ := h
  refine resolveNcmId_of_first subject ⟨q, [], [(3, d)]⟩ 3 d (by simp) hne ?_ rfl
  unfold ncmPattern
  rw [first_alt_right _ _ _ hA, first_alt_right _ _ _ hB]
  exact first_alt_left _ _ _ _ hq

/-- C4: for a non-empty string `d` of ASCII decimal digits, each accepted
shape resolves to exactly `d`: the short link, the path-style link followed
by anything, the canonical link with or without the hash segment (each with
`http` or `https`), and `d` between any amount of white space. -/
theorem C4_accepted_shapes_resolve_to_digits (d : JSString) (hne : d ≠ [])
    (hd : ∀ c ∈ d, isDigit c = true) :
    resolveNcmId (lit "https://y.music.163.com/m/playlist?id=" ++ d) = .ok d ∧
    (∀ tail, resolveNcmId (lit "http://music.163.com/playlist/" ++ d ++ lit "/" ++ tail)
      = .ok d) ∧
    (∀ tail, resolveNcmId (lit "https://music.163.com/playlist/" ++ d ++ lit "/" ++ tail)
      = .ok d) ∧
    resolveNcmId (lit "http://music.163.com/playlist?id=" ++ d) = .ok d ∧
    resolveNcmId (lit "https://music.163.com/playlist?id=" ++ d) = .ok d ∧
    resolveNcmId (lit "http://music.163.com/#/playlist?id=" ++ d) = .ok d ∧
    resolveNcmId (lit "https://music.163.com/#/playlist?id=" ++ d) = .ok d ∧
    (∀ ws ws', (∀ c ∈ ws, isWhiteSpace c = true) → (∀ c ∈ ws', isWhiteSpace c = true) →
      resolveNcmId (ws ++ d ++ ws') = .ok d) := by
  obtain ⟨h₁, h₂, h₃, h₄⟩ := first_shapeC d hne hd
  have hnil : d ++ [] = d := List.append_nil d
  rw [hnil] at h₁ h₂ h₃ h₄
  refine ⟨?_, ?_, ?_, ?_, ?_, ?_, ?_, ?_⟩
  · obtain ⟨q, h⟩ := first_shapeA d [] hne hd (fun c hc => absurd hc (by simp))
    rw [hnil] at h
    exact resolveNcmId_of_first _ ⟨q, [], [(1, d)]⟩ 1 d (by simp) hne
      (first_alt_left _ _ _ _ h) rfl
  · intro tail
    rw [List.append_assoc, List.append_assoc]
    exact resolveNcmId_of_shapeB
      (lit "http://music.163.com/playlist/" ++ (d ++ (lit "/" ++ tail))) d hne
      (run_shapeA_fail _ rfl)
      (first_shapeB_http d tail hne hd)
  · intro tail
    rw [List.append_assoc, List.append_assoc]
    exact resolveNcmId_of_shapeB
      (lit "https://music.163.com/playlist/" ++ (d ++ (lit "/" ++ tail))) d hne
      (run_shapeA_fail _ rfl)
      (first_shapeB_https d tail hne hd)
  · exact resolveNcmId_of_shapeC (lit "http://music.163.com/playlist?id=" ++ d) d hne
      (run_shapeA_fail _ rfl) (run_shapeB_fail _ rfl rfl) h₁
  · exact resolveNcmId_of_shapeC (lit "https://music.163.com/playlist?id=" ++ d) d hne
      (run_shapeA_fail _ rfl) (run_shapeB_fail _ rfl rfl) h₂
  · exact resolveNcmId_of_shapeC (lit "http://music.163.com/#/playlist?id=" ++ d) d hne
      (run_shapeA_fail _ rfl) (run_shapeB_fail _ rfl rfl) h₃
  · exact resolveNcmId_of_shapeC (lit "https://music.163.com/#/playlist?id=" ++ d) d hne
      (run_shapeA_fail _ rfl) (run_shapeB_fail _ rfl rfl) h₄
  · intro ws ws' hws hws'
    obtain ⟨q, h⟩ := first_shapeD ws d ws' hne hd hws hws'
    have e : ws ++ d ++ ws' = ws ++ (d ++ (ws' ++ [])) := by simp
    rw [e]
    have hlead := head?_ws_digits ws d (ws' ++ []) hne hd hws
    have hA : Re.run shapeA ⟨0, ws ++ (d ++ (ws' ++ [])), []⟩ = [] :=
      run_fail_lead 104 _ _ _ hlead
    have hB : Re.run shapeB ⟨0, ws ++ (d ++ (ws' ++ [])), []⟩ = [] :=
      run_fail_lead 104 _ _ _ hlead
    have hC : Re.run shapeC ⟨0, ws ++ (d ++ (ws' ++ [])), []⟩ = [] :=
      run_fail_lead 104 _ _ _ hlead
    refine resolveNcmId_of_first _ ⟨q, [], [(4, d)]⟩ 4 d (by simp) hne ?_ rfl
    unfold ncmPattern
    rw [first_alt_right _ _ _ hA, first_alt_right _ _ _ hB, first_alt_right _ _ _ hC]
    exact h

theorem C4_accepted_shapes_resolve_to_digits_witness :
    lit "987" ≠ [] ∧ (∀ c ∈ lit "987", isDigit c = true) ∧
    resolveNcmId (lit "  " ++ lit "987" ++ lit "  ") = .ok (lit "987") :=
  ⟨by decide, by decide,
    (C4_accepted_shapes_resolve_to_digits (lit "987") (by decide) (by decide)).2.2.2.2.2.2.2
      (lit "  ") (lit "  ") (by decide) (by decide)⟩
theorem starRun_rest_suffix (a : Atom) (caps : List (Nat × JSString)) (l : JSString)
    (p : Nat) (s₁ : Cursor) (h : s₁ ∈ starRun a caps p l) : s₁.rest <:+ l := by
  induction l generalizing p with
  | nil =>
    simp only [starRun, List.mem_singleton] at h
    subst h
    exact List.suffix_refl _
  | cons c cs ih =>
    simp only [starRun] at h
    split at h
    · rcases List.mem_append.mp h with h | h
      · exact (ih _ h).trans (List.suffix_cons c cs)
      · simp only [List.mem_singleton] at h
        subst h
        exact List.suffix_refl _
    · simp only [List.mem_singleton] at h
      subst h
      exact List.suffix_refl _

/-- Matching only moves forward: what is left after a match is a suffix of
what was left before. -/
theorem run_rest_suffix (r : Re) (s s₁ : Cursor) (h : s₁ ∈ Re.run r s) :
    s₁.rest <:+ s.rest := by
  induction r generalizing s s₁ with
  | eps =>
    simp only [Re.run, List.mem_singleton] at h
    subst h
    exact List.suffix_refl _
  | atom a =>
    obtain ⟨p, l, caps⟩ := s
    cases l with
    | nil => simp [Re.run] at h
    | cons c cs =>
      simp only [Re.run] at h
      split at h
      · simp only [List.mem_singleton] at h
        subst h
        exact List.suffix_cons c cs
      · simp at h
  | bol =>
    simp only [Re.run] at h
    split at h
    · simp only [List.mem_singleton] at h
      subst h
      exact List.suffix_refl _
    · simp at h
  | eol =>
    simp only [Re.run] at h
    split at h
    · simp only [List.mem_singleton] at h
      subst h
      exact List.suffix_refl _
    · simp at h
  | seq r₁ r₂ ih₁ ih₂ =>
    simp only [Re.run, List.mem_flatMap] at h
    obtain ⟨m, hm, hs⟩ := h
    exact (ih₂ _ _ hs).trans (ih₁ _ _ hm)
  | alt r₁ r₂ ih₁ ih₂ =>
    simp only [Re.run, List.mem_append] at h
    rcases h with h | h
    · exact ih₁ _ _ h
    · exact ih₂ _ _ h
  | star a =>
    simp only [Re.run] at h
    exact starRun_rest_suffix a _ _ _ _ h
  | plus a =>
    obtain ⟨p, l, caps⟩ := s
    cases l with
    | nil => simp [Re.run] at h
    | cons c cs =>
      simp only [Re.run] at h
      split at h
      · exact (starRun_rest_suffix a _ _ _ _ h).trans (List.suffix_cons c cs)
      · simp at h
  | opt r ih =>
    simp only [Re.run, List.mem_append, List.mem_singleton] at h
    rcases h with h | h
    · exact ih _ _ h
    · subst h
      exact List.suffix_refl _
  | group n r ih =>
    simp only [Re.run, List.mem_map] at h
    obtain ⟨m, hm, hs⟩ := h
    rw [← hs]
    exact ih s m hm

theorem run_group_digits_fail (n : Nat) (s : Cursor) (h : ∀ c ∈ s.rest, isDigit c = false) :
    Re.run (.group n (.plus .digit)) s = [] := by
  obtain ⟨p, l, caps⟩ := s
  cases l with
  | nil => simp [Re.run]
  | cons c cs =>
    have hc : isDigit c = false := h c (by simp)
    simp [Re.run, Atom.test, hc]

/-- A concatenation that contains a digit group matches nothing where no
digit is left. -/
theorem run_cat_no_digit (rs : List Re) (n : Nat) (hmem : Re.group n (.plus .digit) ∈ rs)
    (s : Cursor) (h : ∀ c ∈ s.rest, isDigit c = false) : Re.run (Re.cat rs) s = [] := by
  induction rs generalizing s with
  | nil => simp at hmem
  | cons r rs ih =>
    rw [run_cat_cons]
    rcases List.mem_cons.mp hmem with he | hin
    · subst he
      rw [run_group_digits_fail n s h]
      rfl
    · rw [List.flatMap_eq_nil_iff]
      intro m hm
      exact ih hin m (fun c hc => h c ((run_rest_suffix r s m hm).subset hc))

theorem run_shapes_no_digit (s : Cursor) (h : ∀ c ∈ s.rest, isDigit c = false) :
    ∀ r ∈ [shapeA, shapeB, shapeC, shapeD], Re.run r s = [] := by
  intro r hr
  simp only [List.mem_cons, List.mem_singleton, List.not_mem_nil, or_false] at hr
  rcases hr with hr | hr | hr | hr <;> subst hr
  · exact run_cat_no_digit _ 1 (by simp) s h
  · exact run_cat_no_digit _ 2 (by simp) s h
  · exact run_cat_no_digit _ 3 (by simp) s h
  · exact run_cat_no_digit _ 4 (by simp) s h

theorem execFrom_eq_none (re : Re) (l : JSString) (pos : Nat)
    (h : ∀ i ≤ l.length, Re.run re ⟨pos + i, l.drop i, []⟩ = []) :
    execFrom re pos l = none := by
  induction l generalizing pos with
  | nil =>
    have h0 := h 0 (Nat.le_refl _)
    simp only [List.drop_nil, Nat.add_zero] at h0
    simp [execFrom, h0]
  | cons c cs ih =>
    have h0 := h 0 (Nat.zero_le _)
    simp only [List.drop_zero, Nat.add_zero] at h0
    simp only [execFrom, h0, List.head?_nil]
    apply ih
    intro i hi
    have := h (i + 1) (by simp only [List.length_cons]; omega)
    simp only [List.drop_succ_cons] at this
    rw [← this]
    congr 2
    omega

theorem run_ncmPattern_nil (s : Cursor)
    (h : ∀ r ∈ [shapeA, shapeB, shapeC, shapeD], Re.run r s = []) :
    Re.run ncmPattern s = [] := by
  have hA := h shapeA (by simp)
  have hB := h shapeB (by simp)
  have hC := h shapeC (by simp)
  have hD := h shapeD (by simp)
  show Re.run shapeA s ++ (Re.run shapeB s ++ (Re.run shapeC s ++ Re.run shapeD s)) = []
  rw [hA, hB, hC, hD]
  rfl

/-- C5: an input on which none of the four alternatives matches at any index
— in particular an input without any ASCII decimal digit — makes
`importNcmSheet` throw the unrecognized-reference error, with no request
issued. -/
theorem C5_unrecognized_reference_fails_first (env : Env) (urlLike : JSString) :
    ((∀ i ≤ urlLike.length, ∀ r ∈ [shapeA, shapeB, shapeC, shapeD],
        Re.run r ⟨i, urlLike.drop i, []⟩ = []) →
      importNcmSheet env urlLike = (.error "无法识别的网易云歌单链接或 ID 格式。", [])) ∧
    ((∀ c ∈ urlLike, isDigit c = false) →
      importNcmSheet env urlLike = (.error "无法识别的网易云歌单链接或 ID 格式。", [])) := by
  have key : (∀ i ≤ urlLike.length, ∀ r ∈ [shapeA, shapeB, shapeC, shapeD],
        Re.run r ⟨i, urlLike.drop i, []⟩ = []) →
      importNcmSheet env urlLike = (.error "无法识别的网易云歌单链接或 ID 格式。", []) := by
    intro h
    have hnone : jsMatch ncmPattern urlLike = none := by
      apply execFrom_eq_none
      intro i hi
      rw [Nat.zero_add]
      exact run_ncmPattern_nil _ (h i hi)
    simp [importNcmSheet, resolveNcmId, hnone]
  refine ⟨key, fun h => key ?_⟩
  intro i _
  exact run_shapes_no_digit _ (fun c hc => h c (List.mem_of_mem_drop hc))

theorem C5_unrecognized_reference_fails_first_witness :
    (∀ c ∈ lit "not a link", isDigit c = false) ∧
    importNcmSheet (envWith []) (lit "not a link")
      = (.error "无法识别的网易云歌单链接或 ID 格式。", []) :=
  ⟨by decide,
    (C5_unrecognized_reference_fails_first (envWith []) (lit "not a link")).2 (by decide)⟩

/-! ## Theorems: the orchestrator -/

theorem slices_nil {α : Type} (size : Nat) (h : 0 < size) : slices size ([] : List α) = [] := by
  have : (size - 1) / size = 0 := Nat.div_eq_of_lt (by omega)
  simp [slices, this]

theorem slices_count_succ (n size : Nat) (hn : 0 < n) (hs : 0 < size) :
    (n + size - 1) / size = (n - size + size - 1) / size + 1 := by
  by_cases h : size ≤ n
  · have e₁ : n + size - 1 = (n - 1) + size := by omega
    have e₂ : n - size + size - 1 = n - 1 := by omega
    rw [e₁, e₂, Nat.add_div_right _ hs]
  · have e₁ : n + size - 1 = (n - 1) + size := by omega
    have e₂ : n - size + size - 1 = size - 1 := by omega
    rw [e₁, e₂, Nat.add_div_right _ hs, Nat.div_eq_of_lt (by omega : n - 1 < size),
      Nat.div_eq_of_lt (by omega : size - 1 < size)]

theorem slices_cons {α : Type} (size : Nat) (l : List α) (hs : 0 < size) (hl : l ≠ []) :
    slices size l = l.take size :: slices size (l.drop size) := by
  have hn : 0 < l.length := List.length_pos.mpr hl
  unfold slices
  rw [slices_count_succ l.length size hn hs, List.length_drop, List.range_succ_eq_map]
  simp only [List.map_cons, List.map_map, Nat.mul_zero, List.drop_zero, List.cons.injEq,
    true_and]
  apply List.map_congr_left
  intro j _
  simp only [Function.comp, List.drop_drop]
  congr 2
  rw [Nat.mul_succ]
  omega

theorem slices_flatten_aux {α : Type} (size : Nat) (hs : 0 < size) (n : Nat) :
    ∀ l : List α, l.length ≤ n → (slices size l).flatten = l := by
  induction n with
  | zero =>
    intro l hl
    have : l = [] := List.length_eq_zero.mp (by omega)
    subst this
    simp [slices_nil size hs]
  | succ n ih =>
    intro l hl
    cases l with
    | nil => simp [slices_nil size hs]
    | cons x xs =>
      rw [slices_cons size (x :: xs) hs (by simp), List.flatten_cons,
        ih ((x :: xs).drop size) (by rw [List.length_drop]; simp at hl ⊢; omega),
        List.take_append_drop]

theorem slices_flatten {α : Type} (size : Nat) (hs : 0 < size) (l : List α) :
    (slices size l).flatten = l :=
  slices_flatten_aux size hs l.length l (Nat.le_refl _)
theorem getNcmTrackDetails_events (env : Env) (batchIds : List Nat) (h : batchIds ≠ []) :
    (getNcmTrackDetails env batchIds).2 = [.detailRequest batchIds] := by
  have hl : batchIds.length ≠ 0 := fun h0 => h (List.length_eq_zero.mp h0)
  unfold getNcmTrackDetails
  rw [if_neg hl]
  cases env.songDetail batchIds with
  | error e => rfl
  | ok r =>
    cases r with
    | none => rfl
    | some songs =>
      simp only
      split <;> rfl

/-- The metadata loop from index `i`, with enough iterations left, requests
the consecutive slices of the remaining IDs and appends their results. -/
theorem metadataLoop_eq (env : Env) (trackIds : List Nat) (fuel i : Nat)
    (acc : List MusicItem) (tr : List Event) (hfuel : trackIds.length - i ≤ fuel) :
    metadataLoop env trackIds fuel i acc tr =
      (acc ++ (slices batchSizeNcm (trackIds.drop i)).flatMap
          (fun b => (getNcmTrackDetails env b).1),
        tr ++ (slices batchSizeNcm (trackIds.drop i)).map Event.detailRequest) := by
  induction fuel generalizing i acc tr with
  | zero =>
    have hnil : trackIds.drop i = [] := List.drop_eq_nil_of_le (by omega)
    simp [metadataLoop, hnil, slices_nil batchSizeNcm (by decide)]
  | succ fuel ih =>
    unfold metadataLoop
    by_cases hi : i < trackIds.length
    · have hne : trackIds.drop i ≠ [] := by
        intro h0
        have := congrArg List.length h0
        simp only [List.length_drop, List.length_nil] at this
        omega
      have htake : (trackIds.drop i).take batchSizeNcm ≠ [] := by
        intro h0
        have := congrArg List.length h0
        simp only [List.length_take, List.length_drop, List.length_nil, batchSizeNcm] at this
        omega
      rw [if_pos hi]
      simp only
      rw [ih (i + batchSizeNcm) _ _ (by simp only [batchSizeNcm]; omega),
        slices_cons batchSizeNcm (trackIds.drop i) (by decide) hne,
        getNcmTrackDetails_events env _ htake, List.drop_drop]
      have e : i + batchSizeNcm = batchSizeNcm + i := Nat.add_comm _ _
      simp [e, List.append_assoc]
    · have hnil : trackIds.drop i = [] := List.drop_eq_nil_of_le (by omega)
      rw [if_neg hi, hnil]
      simp [slices_nil batchSizeNcm (by decide)]

theorem fetchNcmTracks_eq (env : Env) (trackIds : List Nat) :
    fetchNcmTracks env trackIds =
      ((slices batchSizeNcm trackIds).flatMap (fun b => (getNcmTrackDetails env b).1),
        (slices batchSizeNcm trackIds).map Event.detailRequest) := by
  unfold fetchNcmTracks
  rw [metadataLoop_eq env trackIds trackIds.length 0 [] [] (by omega)]
  simp

/-- C7: for `n ≥ 1` track IDs the metadata loop issues `ceil(n/200)` detail
requests, one per consecutive slice of the ID list; every slice but the last
has 200 IDs and the last has between 1 and 200; the slices concatenated give
the ID list; the external track list is the concatenation of the batch
results in request order. -/
theorem C7_metadata_batches (env : Env) (trackIds : List Nat) (hn : 1 ≤ trackIds.length) :
    (fetchNcmTracks env trackIds).2 = (slices 200 trackIds).map Event.detailRequest ∧
    (fetchNcmTracks env trackIds).1
      = (slices 200 trackIds).flatMap (fun b => (getNcmTrackDetails env b).1) ∧
    (slices 200 trackIds).length = (trackIds.length + 199) / 200 ∧
    (∀ j, j < (trackIds.length + 199) / 200 →
      (slices 200 trackIds)[j]? = some ((trackIds.drop (200 * j)).take 200)) ∧
    (∀ j, j + 1 < (trackIds.length + 199) / 200 →
      ((trackIds.drop (200 * j)).take 200).length = 200) ∧
    (1 ≤ ((trackIds.drop (200 * ((trackIds.length + 199) / 200 - 1))).take 200).length ∧
      ((trackIds.drop (200 * ((trackIds.length + 199) / 200 - 1))).take 200).length ≤ 200) ∧
    (slices 200 trackIds).flatten = trackIds ∧
    (∀ id, env.playlistDetail id = .ok (some trackIds) →
      (processNcmPlaylistImport env id).2 =
        [Event.listRequest id] ++ (slices 200 trackIds).map Event.detailRequest
          ++ (matchLoop env (fetchNcmTracks env trackIds).1).trace) := by
  have hf := fetchNcmTracks_eq env trackIds
  simp only [batchSizeNcm] at hf
  refine ⟨by rw [hf], by rw [hf], by simp [slices], ?_, ?_, ?_, slices_flatten 200 (by decide) _,
    ?_⟩
  · intro j hj
    simp [slices, hj]
  · intro j hj
    simp only [List.length_take, List.length_drop]
    omega
  · simp only [List.length_take, List.length_drop]
    omega
  · intro id hid
    have hl : trackIds.length ≠ 0 := by omega
    simp [processNcmPlaylistImport, getNcmPlaylistTrackIds, hid, hl, hf]

theorem C7_metadata_batches_witness :
    1 ≤ (List.replicate 450 7).length ∧
    (slices 200 (List.replicate 450 7)).length = ((List.replicate 450 7).length + 199) / 200 ∧
    (slices 200 (List.replicate 450 7)).flatten = List.replicate 450 7 :=
  ⟨by simp only [List.length_replicate]; decide,
    (C7_metadata_batches (envWith []) (List.replicate 450 7)
      (by simp only [List.length_replicate]; decide)).2.2.1,
    (C7_metadata_batches (envWith []) (List.replicate 450 7)
      (by simp only [List.length_replicate]; decide)).2.2.2.2.2.2.1⟩
/-- Fewer than five units in all: every track is pushed, nothing is awaited. -/
theorem foldl_matchStep_short (env : Env) (g : List MusicItem) (m pend : List MusicItem)
    (tr : List Event) (h : pend.length + g.length < NCM_IMPORT_CONCURRENCY) :
    g.foldl (matchStep env) ⟨m, pend, tr⟩ = ⟨m, pend ++ g, tr ++ g.map Event.searchStart⟩ := by
  induction g generalizing pend tr with
  | nil => simp
  | cons x xs ih =>
    have hlt : ¬ (pend ++ [x]).length ≥ NCM_IMPORT_CONCURRENCY := by
      simp only [List.length_append, List.length_cons, List.length_nil] at h ⊢
      omega
    simp only [List.foldl_cons, matchStep, if_neg hlt]
    rw [ih (pend ++ [x]) _ (by
      simp only [List.length_append, List.length_cons, List.length_nil] at h ⊢
      omega)]
    simp

/-- Exactly five tracks from an empty pending list: all five are started,
then awaited together, and the pending list is emptied. -/
theorem foldl_matchStep_full (env : Env) (g : List MusicItem) (m : List MusicItem)
    (tr : List Event) (h : g.length = NCM_IMPORT_CONCURRENCY) :
    g.foldl (matchStep env) ⟨m, [], tr⟩ =
      ⟨m ++ g.filterMap (findAndMergeNcmTrackOnEmby env), [], tr ++ groupEvents g⟩ := by
  obtain ⟨g', x, rfl⟩ : ∃ g' x, g = g' ++ [x] := by
    cases hg : g.reverse with
    | nil =>
      have : g = [] := by simpa using hg
      subst this
      simp [NCM_IMPORT_CONCURRENCY] at h
    | cons x xs =>
      refine ⟨xs.reverse, x, ?_⟩
      have := congrArg List.reverse hg
      simpa using this
  have hlen : g'.length = 4 := by
    simp only [List.length_append, List.length_cons, List.length_nil,
      NCM_IMPORT_CONCURRENCY] at h
    omega
  rw [List.foldl_append, foldl_matchStep_short env g' m [] tr (by
    simp only [List.length_nil, NCM_IMPORT_CONCURRENCY]
    omega)]
  have hge : (g' ++ [x]).length ≥ NCM_IMPORT_CONCURRENCY := by
    simp only [List.length_append, List.length_cons, List.length_nil, NCM_IMPORT_CONCURRENCY]
    omega
  simp only [List.foldl_cons, List.foldl_nil, matchStep, List.nil_append, if_pos hge, settle,
    groupEvents]
  simp

theorem slices_of_short {α : Type} (size : Nat) (l : List α) (hs : 0 < size) (hl : l ≠ [])
    (h : l.length ≤ size) : slices size l = [l] := by
  rw [slices_cons size l hs hl, List.take_of_length_le h, List.drop_eq_nil_of_le h,
    slices_nil size hs]

/-- The matching loop from an empty pending list: the matched tracks are the
non-null results in track order, and the events are those of the consecutive
groups of five. -/
theorem settleRest_foldl_aux (env : Env) (n : Nat) :
    ∀ (l m : List MusicItem) (tr : List Event), l.length ≤ n →
      settleRest env (l.foldl (matchStep env) ⟨m, [], tr⟩) =
        ⟨m ++ l.filterMap (findAndMergeNcmTrackOnEmby env),
          if l.length % NCM_IMPORT_CONCURRENCY = 0 then []
          else l.drop (NCM_IMPORT_CONCURRENCY * (l.length / NCM_IMPORT_CONCURRENCY)),
          tr ++ (slices NCM_IMPORT_CONCURRENCY l).flatMap groupEvents⟩ := by
  induction n with
  | zero =>
    intro l m tr hl
    have : l = [] := List.length_eq_zero.mp (by omega)
    subst this
    simp [settleRest, slices_nil, NCM_IMPORT_CONCURRENCY]
  | succ n ih =>
    intro l m tr hl
    by_cases h5 : l.length < NCM_IMPORT_CONCURRENCY
    · by_cases hnil : l = []
      · subst hnil
        simp [settleRest, slices_nil, NCM_IMPORT_CONCURRENCY]
      · have hpos : 0 < l.length := List.length_pos.mpr hnil
        rw [foldl_matchStep_short env l m [] tr (by simpa using h5),
          slices_of_short _ l (by decide) hnil (Nat.le_of_lt h5)]
        simp only [NCM_IMPORT_CONCURRENCY] at h5
        have hmod : l.length % NCM_IMPORT_CONCURRENCY ≠ 0 := by
          simp only [NCM_IMPORT_CONCURRENCY]
          omega
        have hdiv : l.length / NCM_IMPORT_CONCURRENCY = 0 := by
          simp only [NCM_IMPORT_CONCURRENCY]
          omega
        simp [settleRest, settle, hpos, groupEvents, hmod, hdiv]
    · have hsplit : l = l.take NCM_IMPORT_CONCURRENCY ++ l.drop NCM_IMPORT_CONCURRENCY :=
        (List.take_append_drop _ l).symm
      have htake : (l.take NCM_IMPORT_CONCURRENCY).length = NCM_IMPORT_CONCURRENCY := by
        rw [List.length_take]
        omega
      have hne : l ≠ [] := by
        intro h0
        subst h0
        simp [NCM_IMPORT_CONCURRENCY] at h5
      have hdrop : (l.drop NCM_IMPORT_CONCURRENCY).length ≤ n := by
        rw [List.length_drop]
        simp only [NCM_IMPORT_CONCURRENCY] at h5 ⊢
        omega
      conv_lhs => rw [hsplit]
      rw [List.foldl_append, foldl_matchStep_full env _ m tr htake,
        ih (l.drop NCM_IMPORT_CONCURRENCY) _ _ hdrop,
        slices_cons NCM_IMPORT_CONCURRENCY l (by decide) hne]
      have hfm : l.filterMap (findAndMergeNcmTrackOnEmby env) =
          (l.take NCM_IMPORT_CONCURRENCY).filterMap (findAndMergeNcmTrackOnEmby env) ++
          (l.drop NCM_IMPORT_CONCURRENCY).filterMap (findAndMergeNcmTrackOnEmby env) := by
        rw [← List.filterMap_append, List.take_append_drop]
      have hlen : (l.drop NCM_IMPORT_CONCURRENCY).length = l.length - 5 := by
        rw [List.length_drop]
        rfl
      have hmod : (l.length - 5) % 5 = l.length % 5 := by
        simp only [NCM_IMPORT_CONCURRENCY] at h5
        omega
      have hdiv : 5 + 5 * ((l.length - 5) / 5) = 5 * (l.length / 5) := by
        simp only [NCM_IMPORT_CONCURRENCY] at h5
        omega
      rw [hfm, hlen]
      simp only [NCM_IMPORT_CONCURRENCY, List.flatMap_cons, List.append_assoc, hmod,
        List.drop_drop, hdiv]

theorem matchLoop_eq (env : Env) (ncmTracks : List MusicItem) :
    matchLoop env ncmTracks =
      ⟨ncmTracks.filterMap (findAndMergeNcmTrackOnEmby env),
        if ncmTracks.length % NCM_IMPORT_CONCURRENCY = 0 then []
        else ncmTracks.drop
          (NCM_IMPORT_CONCURRENCY * (ncmTracks.length / NCM_IMPORT_CONCURRENCY)),
        (slices NCM_IMPORT_CONCURRENCY ncmTracks).flatMap groupEvents⟩ := by
  unfold matchLoop
  rw [settleRest_foldl_aux env ncmTracks.length ncmTracks [] [] (Nat.le_refl _)]
  simp
theorem prefix_append_cases {α : Type} (a b p : List α) (h : p <+: a ++ b) :
    p <+: a ∨ ∃ p', p = a ++ p' ∧ p' <+: b := by
  induction a generalizing p with
  | nil => exact Or.inr ⟨p, rfl, h⟩
  | cons x xs ih =>
    rw [List.cons_append, List.prefix_cons_iff] at h
    rcases h with h | ⟨t, ht, hpre⟩
    · subst h
      exact Or.inl List.nil_prefix
    · subst ht
      rcases ih t hpre with h1 | ⟨p', hp', hb⟩
      · exact Or.inl (List.cons_prefix_cons.mpr ⟨rfl, h1⟩)
      · exact Or.inr ⟨p', by rw [hp', List.cons_append], hb⟩

theorem foldl_pendingStep_starts (g : List MusicItem) (n : Nat) :
    (g.map Event.searchStart).foldl pendingStep n = n + g.length := by
  induction g generalizing n with
  | nil => rfl
  | cons x xs ih =>
    simp only [List.map_cons, List.foldl_cons, pendingStep, ih, List.length_cons]
    omega

theorem foldl_pendingStep_group (g : List MusicItem) (n : Nat) :
    (groupEvents g).foldl pendingStep n = n := by
  simp only [groupEvents, List.foldl_append, foldl_pendingStep_starts, List.foldl_cons,
    List.foldl_nil, pendingStep]
  omega

theorem foldl_pendingStep_groups (gs : List (List MusicItem)) (n : Nat) :
    (gs.flatMap groupEvents).foldl pendingStep n = n := by
  induction gs generalizing n with
  | nil => rfl
  | cons g gs ih =>
    rw [List.flatMap_cons, List.foldl_append, foldl_pendingStep_group, ih]

theorem pending_prefix_of_group (g : List MusicItem) (p : List Event)
    (h : p <+: groupEvents g) : p.foldl pendingStep 0 ≤ g.length := by
  rcases prefix_append_cases _ _ p h with h1 | ⟨p', hp', hb⟩
  · have e : p = (g.take p.length).map Event.searchStart := by
      have := List.prefix_iff_eq_take.mp h1
      rw [this, ← List.map_take]
      simp
    rw [e, foldl_pendingStep_starts, List.length_take]
    omega
  · subst hp'
    rw [List.foldl_append, foldl_pendingStep_starts]
    rcases List.prefix_cons_iff.mp hb with h0 | ⟨t, ht, htn⟩
    · subst h0
      simp
    · subst ht
      have : t = [] := List.prefix_nil.mp htn
      subst this
      simp [pendingStep]

/-- Along the events of a sequence of groups, the number of pending units
never exceeds the size of the largest group. -/
theorem pending_prefix_of_groups (k : Nat) (gs : List (List MusicItem))
    (hgs : ∀ g ∈ gs, g.length ≤ k) (p : List Event) (h : p <+: gs.flatMap groupEvents) :
    pendingAfter p ≤ k := by
  unfold pendingAfter
  induction gs generalizing p with
  | nil =>
    have : p = [] := List.prefix_nil.mp h
    subst this
    exact Nat.zero_le _
  | cons g gs ih =>
    rw [List.flatMap_cons] at h
    rcases prefix_append_cases _ _ p h with h1 | ⟨p', hp', hb⟩
    · exact Nat.le_trans (pending_prefix_of_group g p h1) (hgs g (by simp))
    · subst hp'
      rw [List.foldl_append, foldl_pendingStep_group]
      exact ih (fun g' hg' => hgs g' (by simp [hg'])) p' hb

theorem slices_length_le {α : Type} (size : Nat) (l : List α) :
    ∀ g ∈ slices size l, g.length ≤ size := by
  intro g hg
  simp only [slices, List.mem_map] at hg
  obtain ⟨j, _, rfl⟩ := hg
  rw [List.length_take]
  exact Nat.min_le_left _ _

theorem slices_getElem? {α : Type} (size : Nat) (l : List α) (j : Nat)
    (hj : j < (l.length + size - 1) / size) :
    (slices size l)[j]? = some ((l.drop (size * j)).take size) := by
  unfold slices
  rw [List.getElem?_map, List.getElem?_range hj]
  rfl

/-- C10: the events of the matching loop are those of the consecutive groups
of five external tracks, each group started and then awaited as a whole
before the next one begins; the number of pending units is at most 5 after
every event and 0 after every completed group; for `N` tracks there are
`N / 5` groups of exactly 5 followed by one group of `N % 5` when that is
not zero. -/
theorem C10_bounded_batches_of_five (env : Env) (ncmTracks : List MusicItem) :
    (matchLoop env ncmTracks).trace = (slices 5 ncmTracks).flatMap groupEvents ∧
    (∀ p, p <+: (matchLoop env ncmTracks).trace → pendingAfter p ≤ 5) ∧
    (∀ k, pendingAfter (((slices 5 ncmTracks).take k).flatMap groupEvents) = 0) ∧
    (slices 5 ncmTracks).flatten = ncmTracks ∧
    (slices 5 ncmTracks).length
      = ncmTracks.length / 5 + (if ncmTracks.length % 5 = 0 then 0 else 1) ∧
    (∀ j, j < ncmTracks.length / 5 →
      (slices 5 ncmTracks)[j]? = some ((ncmTracks.drop (5 * j)).take 5) ∧
      ((ncmTracks.drop (5 * j)).take 5).length = 5) ∧
    (ncmTracks.length % 5 ≠ 0 →
      (slices 5 ncmTracks)[ncmTracks.length / 5]?
        = some (ncmTracks.drop (5 * (ncmTracks.length / 5))) ∧
      (ncmTracks.drop (5 * (ncmTracks.length / 5))).length = ncmTracks.length % 5) := by
  have ht : (matchLoop env ncmTracks).trace = (slices 5 ncmTracks).flatMap groupEvents := by
    rw [matchLoop_eq]
    rfl
  refine ⟨ht, ?_, ?_, slices_flatten 5 (by decide) _, ?_, ?_, ?_⟩
  · intro p hp
    rw [ht] at hp
    exact pending_prefix_of_groups 5 _ (slices_length_le 5 ncmTracks) p hp
  · intro k
    exact foldl_pendingStep_groups _ 0
  · simp only [slices, List.length_map, List.length_range]
    split <;> omega
  · intro j hj
    constructor
    · exact slices_getElem? 5 ncmTracks j (by omega)
    · rw [List.length_take, List.length_drop]
      omega
  · intro hmod
    constructor
    · have hlen : (ncmTracks.drop (5 * (ncmTracks.length / 5))).length ≤ 5 := by
        rw [List.length_drop]
        omega
      rw [slices_getElem? 5 ncmTracks _ (by omega), List.take_of_length_le hlen]
    · rw [List.length_drop]
      omega

theorem C10_bounded_batches_of_five_witness :
    (matchLoop (envWith []) (List.replicate 7 extAB)).trace
      = (slices 5 (List.replicate 7 extAB)).flatMap groupEvents ∧
    pendingAfter (List.replicate 5 (Event.searchStart extAB)) ≤ 5 :=
  ⟨(C10_bounded_batches_of_five (envWith []) (List.replicate 7 extAB)).1,
    (C10_bounded_batches_of_five (envWith []) (List.replicate 7 extAB)).2.1 _
      ⟨[Event.awaitAll (List.replicate 5 extAB), Event.searchStart extAB,
        Event.searchStart extAB, Event.awaitAll (List.replicate 2 extAB)], by
        rw [(C10_bounded_batches_of_five (envWith []) (List.replicate 7 extAB)).1]
        decide⟩⟩

/-! ## Theorems: order of the alternatives -/

theorem execFrom_skip (re : Re) (l : JSString) (i pos : Nat) (hi : i ≤ l.length)
    (h : ∀ j < i, Re.run re ⟨pos + j, l.drop j, []⟩ = []) :
    execFrom re pos l = execFrom re (pos + i) (l.drop i) := by
  induction i generalizing pos l with
  | zero => rfl
  | succ i ih =>
    cases l with
    | nil => simp at hi
    | cons c cs =>
      have h0 := h 0 (Nat.succ_pos i)
      simp only [List.drop_zero, Nat.add_zero] at h0
      simp only [execFrom, h0, List.head?_nil, List.drop_succ_cons]
      rw [ih cs (pos + 1) (by simpa using hi)]
      · congr 1
        omega
      · intro j hj
        have := h (j + 1) (by omega)
        simp only [List.drop_succ_cons] at this
        rw [← this]
        congr 2
        omega

theorem first_ncmPattern (s : Cursor) :
    Re.first ncmPattern s =
      (Re.first shapeA s).or ((Re.first shapeB s).or
        ((Re.first shapeC s).or (Re.first shapeD s))) := by
  show (Re.run shapeA s ++ (Re.run shapeB s ++ (Re.run shapeC s ++ Re.run shapeD s))).head?
    = _
  simp only [Re.first, List.head?_append]

/-- C11, as the code has it: the start indices are tried from left to right,
and at one index the alternatives are tried in the order (a), (b), (c), (d).
When no alternative matches before index `i`, the match found is the one at
`i`, taken from the first alternative in that order that matches there, and
the ID is extracted from it. -/
theorem C11_leftmost_match_wins (u : JSString) (i : Nat) (hi : i ≤ u.length)
    (hbefore : ∀ j < i, ∀ r ∈ [shapeA, shapeB, shapeC, shapeD],
      Re.run r ⟨j, u.drop j, []⟩ = [])
    (m : Cursor) (hm : Re.first ncmPattern ⟨i, u.drop i, []⟩ = some m) :
    jsMatch ncmPattern u = some m ∧
    (Re.first shapeA ⟨i, u.drop i, []⟩).or ((Re.first shapeB ⟨i, u.drop i, []⟩).or
      ((Re.first shapeC ⟨i, u.drop i, []⟩).or (Re.first shapeD ⟨i, u.drop i, []⟩)))
      = some m ∧
    resolveNcmId u =
      (match extractId m with
        | some id => .ok id
        | none => .error "无法从输入中提取有效的网易云歌单 ID。") := by
  have hj : jsMatch ncmPattern u = some m := by
    unfold jsMatch
    rw [execFrom_skip ncmPattern u i 0 hi (fun j hlt => by
      rw [Nat.zero_add]
      exact run_ncmPattern_nil _ (hbefore j hlt)), Nat.zero_add]
    exact execFrom_of_first _ _ _ _ hm
  refine ⟨hj, ?_, ?_⟩
  · rw [← first_ncmPattern]
    exact hm
  · simp only [resolveNcmId, hj]
    cases extractId m <;> rfl

theorem C11_leftmost_match_wins_witness :
    (∀ j < 2, ∀ r ∈ [shapeA, shapeB, shapeC, shapeD],
      Re.run r ⟨j, (lit "x https://y.music.163.com/m/playlist?id=2").drop j, []⟩ = []) ∧
    resolveNcmId (lit "x https://y.music.163.com/m/playlist?id=2") = .ok (lit "2") :=
  ⟨by decide,
    (C11_leftmost_match_wins (lit "x https://y.music.163.com/m/playlist?id=2") 2 (by decide)
      (by decide) ⟨41, [], [(1, lit "2")]⟩ rfl).2.2⟩

/-- C11 as stated fails: in `twoLinks` the short-link shape (a) occurs with ID
`2` and the canonical shape (c) occurs with ID `1`; shape (a) is the earlier
one in the order, yet the reference resolves to `1`, the ID of the occurrence
that starts first. -/
theorem C11_counterexample :
    (Re.first shapeA ⟨36, twoLinks.drop 36, []⟩).bind (fun m => m.capture 1)
      = some (lit "2") ∧
    (Re.first shapeC ⟨0, twoLinks, []⟩).bind (fun m => m.capture 3) = some (lit "1") ∧
    resolveNcmId twoLinks = .ok (lit "1") ∧
    resolveNcmId twoLinks ≠ .ok (lit "2") := by
  have h : resolveNcmId twoLinks = .ok (lit "1") := rfl
  refine ⟨rfl, rfl, h, ?_⟩
  rw [h]
  intro hc
  injection hc with hc
  exact absurd hc (by decide)

/-! ## Theorems: failures of the upstream client -/

theorem getNcmTrackDetails_failing (env : Env) (batchIds : List Nat)
    (h : (∃ e, env.songDetail batchIds = .error e) ∨ env.songDetail batchIds = .ok none ∨
      env.songDetail batchIds = .ok (some [])) :
    (getNcmTrackDetails env batchIds).1 = [] := by
  unfold getNcmTrackDetails
  split
  · rfl
  · rcases h with ⟨e, h⟩ | h | h <;> simp [h]

theorem processNcmPlaylistImport_of_listing (env : Env) (id : JSString)
    (trackIds : List Nat) (h : env.playlistDetail id = .ok (some trackIds)) :
    processNcmPlaylistImport env id =
      (.ok (matchedInTrackOrder env (fetchNcmTracks env trackIds).1),
        [Event.listRequest id] ++ (fetchNcmTracks env trackIds).2
          ++ (matchLoop env (fetchNcmTracks env trackIds).1).trace) := by
  by_cases hl : trackIds.length = 0
  · have hnil : trackIds = [] := List.length_eq_zero.mp hl
    subst hnil
    simp only [processNcmPlaylistImport, getNcmPlaylistTrackIds, h, List.length_nil, if_true]
    rfl
  · simp only [processNcmPlaylistImport, getNcmPlaylistTrackIds, h, hl, if_false, matchLoop_eq]
    rfl

/-- C12: a batch whose detail request errors, or whose answer has no songs,
yields the empty list; the external track list is then the results of the
other batches in batch order; and the run still goes on to matching and
returns normally, whatever the detail requests do. -/
theorem C12_failing_batch_degrades (env : Env) :
    (∀ batchIds, ((∃ e, env.songDetail batchIds = .error e) ∨
        env.songDetail batchIds = .ok none ∨ env.songDetail batchIds = .ok (some [])) →
      (getNcmTrackDetails env batchIds).1 = []) ∧
    (∀ trackIds pre b post, slices 200 trackIds = pre ++ b :: post →
      ((∃ e, env.songDetail b = .error e) ∨ env.songDetail b = .ok none ∨
        env.songDetail b = .ok (some [])) →
      (fetchNcmTracks env trackIds).1 =
        pre.flatMap (fun x => (getNcmTrackDetails env x).1)
          ++ post.flatMap (fun x => (getNcmTrackDetails env x).1)) ∧
    (∀ id trackIds, env.playlistDetail id = .ok (some trackIds) →
      (processNcmPlaylistImport env id).1
        = .ok (matchedInTrackOrder env (fetchNcmTracks env trackIds).1)) ∧
    (∀ id trackIds, env.playlistDetail id = .ok (some trackIds) →
      (∀ batchIds, ∃ e, env.songDetail batchIds = .error e) →
      (processNcmPlaylistImport env id).1 = .ok []) := by
  have h1 := getNcmTrackDetails_failing env
  refine ⟨h1, ?_, ?_, ?_⟩
  · intro trackIds pre b post hs hb
    have hf := fetchNcmTracks_eq env trackIds
    simp only [batchSizeNcm] at hf
    rw [hf, hs]
    simp [List.flatMap_append, List.flatMap_cons, h1 b hb]
  · intro id trackIds hid
    rw [processNcmPlaylistImport_of_listing env id trackIds hid]
  · intro id trackIds hid hall
    rw [processNcmPlaylistImport_of_listing env id trackIds hid]
    have hf := fetchNcmTracks_eq env trackIds
    have hnil : (fetchNcmTracks env trackIds).1 = [] := by
      rw [hf]
      simp only [List.flatMap_eq_nil_iff]
      intro b _
      exact h1 b (Or.inl (hall b))
    simp only [hnil]
    rfl

theorem C12_failing_batch_degrades_witness :
    (processNcmPlaylistImport envDetailFails (lit "12")).1 = .ok [] :=
  (C12_failing_batch_degrades envDetailFails).2.2.2 (lit "12") [1, 2, 3] rfl
    (fun _ => ⟨"timeout", rfl⟩)

/-- C13: for a recognized reference, `importNcmSheet` throws exactly when the
listing request errors or its answer has no `playlist.trackIds`; the message
is the fixed prefix followed by the cause's message; only the listing
request has then been issued; a listing with no track ID returns the empty
result. -/
theorem C13_listing_failure_is_fatal (env : Env) (urlLike id : JSString)
    (hid : resolveNcmId urlLike = .ok id) :
    ((∃ message, (importNcmSheet env urlLike).1 = .error message) ↔
      ((∃ e, env.playlistDetail id = .error e) ∨ env.playlistDetail id = .ok none)) ∧
    (∀ e, env.playlistDetail id = .error e →
      importNcmSheet env urlLike
        = (.error ("获取网易云歌单信息失败: " ++ e), [Event.listRequest id])) ∧
    (env.playlistDetail id = .ok none →
      importNcmSheet env urlLike
        = (.error ("获取网易云歌单信息失败: " ++ "无法获取网易云歌单详情。"),
            [Event.listRequest id])) ∧
    (env.playlistDetail id = .ok (some []) →
      importNcmSheet env urlLike = (.ok [], [Event.listRequest id])) := by
  have himp : importNcmSheet env urlLike = processNcmPlaylistImport env id := by
    simp [importNcmSheet, hid]
  rw [himp]
  refine ⟨?_, ?_, ?_, ?_⟩
  · cases hp : env.playlistDetail id with
    | error e => simp [processNcmPlaylistImport, getNcmPlaylistTrackIds, hp]
    | ok r =>
      cases r with
      | none => simp [processNcmPlaylistImport, getNcmPlaylistTrackIds, hp]
      | some trackIds =>
        rw [processNcmPlaylistImport_of_listing env id trackIds hp]
        simp
  · intro e he
    simp [processNcmPlaylistImport, getNcmPlaylistTrackIds, he]
  · intro he
    simp [processNcmPlaylistImport, getNcmPlaylistTrackIds, he]
  · intro he
    simp [processNcmPlaylistImport, getNcmPlaylistTrackIds, he]

theorem C13_listing_failure_is_fatal_witness :
    resolveNcmId (lit "12") = .ok (lit "12") ∧
    importNcmSheet envListingFails (lit "12")
      = (.error ("获取网易云歌单信息失败: " ++ "timeout"), [Event.listRequest (lit "12")]) :=
  ⟨rfl, (C13_listing_failure_is_fatal envListingFails (lit "12") (lit "12") rfl).2.1
    "timeout" rfl⟩

/-! ## Theorems: the three signals and the two forms of the scorer -/

theorem durationMatch_iff (t c : MusicItem) :
    durationMatch t c = true ↔
      ∃ e n : Int, c.duration = some e ∧ t.duration = some n ∧ |e - n| ≤ 5 := by
  unfold durationMatch
  cases hc : c.duration with
  | none => simp
  | some e =>
    cases ht : t.duration with
    | none => simp
    | some n =>
      simp only [decide_eq_true_eq, DURATION_TOLERANCE_SECONDS, Option.some.injEq,
        exists_and_left, exists_eq_left']
      rw [abs_le]
      omega

/-- Whatever the scan returns either was the running best or has the title
together with the artist or the duration. -/
theorem scoreLoop_some_signals (env : Env) (t : MusicItem) (l : List MusicItem)
    (best : Option MusicItem) (score : Int) (r : MusicItem)
    (h : scoreLoop env t l best score = some r) :
    (titleMatch env t r = true ∧ (artistMatch env t r = true ∨ durationMatch t r = true))
      ∨ best = some r := by
  induction l generalizing best score with
  | nil => right; simpa [scoreLoop] using h
  | cons x xs ih =>
    simp only [scoreLoop] at h
    split at h
    · rename_i hp
      simp only [Option.some.injEq] at h
      subst h
      simp only [Bool.and_eq_true] at hp
      exact Or.inl ⟨hp.1.1, Or.inl hp.1.2⟩
    · rcases ih _ _ h with h1 | h1
      · exact Or.inl h1
      · split at h1
        · rename_i h2
          simp only [Bool.and_eq_true] at h2
          split at h1 <;>
          · simp only [Option.some.injEq] at h1
            subst h1
            exact Or.inl ⟨h2.1.1, Or.inl h2.1.2⟩
        · split at h1
          · rename_i h3
            simp only [Option.some.injEq] at h1
            subst h1
            simp only [Bool.and_eq_true] at h3
            exact Or.inl ⟨h3.1.1, Or.inr h3.1.2⟩
          · exact Or.inr h1

/-- C14: durationMatch holds exactly when both durations are numbers and
differ by at most 5 seconds: a difference of 5 matches, a difference of 6
does not, a missing duration on either side never matches, and an external
track without a duration is matched only through title and artist. -/
theorem C14_duration_tolerance (t c : MusicItem) :
    (durationMatch t c = true ↔
      ∃ e n : Int, c.duration = some e ∧ t.duration = some n ∧ |e - n| ≤ 5) ∧
    (∀ n : Int, durationMatch { t with duration := some n } { c with duration := some (n + 5) }
        = true ∧
      durationMatch { t with duration := some n } { c with duration := some (n - 5) } = true ∧
      durationMatch { t with duration := some n } { c with duration := some (n + 6) } = false ∧
      durationMatch { t with duration := some n } { c with duration := some (n - 6) }
        = false) ∧
    (t.duration = none → durationMatch t c = false) ∧
    (c.duration = none → durationMatch t c = false) ∧
    (t.duration = none → ∀ env cands r, bestMatchOf env t cands = some r →
      titleMatch env t r = true ∧ artistMatch env t r = true) := by
  have hnone : t.duration = none → ∀ x, durationMatch t x = false := by
    intro ht x
    unfold durationMatch
    rw [ht]
    cases x.duration <;> rfl
  refine ⟨durationMatch_iff t c, ?_, fun ht => hnone ht c, ?_, ?_⟩
  · intro n
    simp only [durationMatch, DURATION_TOLERANCE_SECONDS, decide_eq_true_eq,
      decide_eq_false_iff_not]
    omega
  · intro hc
    unfold durationMatch
    rw [hc]
  · intro ht env cands r hr
    rcases scoreLoop_some_signals env t cands none (-1) r hr with ⟨hT, hA | hD⟩ | h
    · exact ⟨hT, hA⟩
    · rw [hnone ht r] at hD
      exact absurd hD (by simp)
    · exact absurd h (by simp)

theorem C14_duration_tolerance_witness :
    durationMatch extAB candTD = true ∧
    (∃ e n : Int, candTD.duration = some e ∧ extAB.duration = some n ∧ |e - n| ≤ 5) :=
  ⟨by decide, (C14_duration_tolerance extAB candTD).1.mp (by decide)⟩

/-- C15: the scorer of the specification, an exclusive chain of rule 1, else
rule 2, else rule 3, else discard, selects the same candidate as the loop of
the code with its two independent `if`s, from every running state and so
from `(null, -1)`; and no candidate fires both rule 2 and rule 3 in one
iteration of the code's loop. -/
theorem C15_spec_scorer_refines_code (env : Env) (t : MusicItem) :
    (∀ cands best score,
      specScoreLoop env t cands best score = scoreLoop env t cands best score) ∧
    (∀ cands, specScore env t cands = bestMatchOf env t cands) ∧
    (∀ c score, ¬ (rule2Fires env t c score = true ∧ rule3Fires env t c score = true)) := by
  have h : ∀ cands best score,
      specScoreLoop env t cands best score = scoreLoop env t cands best score := by
    intro cands
    induction cands with
    | nil => intro best score; rfl
    | cons x xs ih =>
      intro best score
      simp only [specScoreLoop, scoreLoop, ih]
      cases hT : titleMatch env t x <;> cases hA : artistMatch env t x <;>
        cases hD : durationMatch t x <;>
        by_cases h15 : score < 15 <;> by_cases h10 : score < 10 <;>
        first
          | (exfalso; omega)
          | simp [h15, h10]
  refine ⟨h, fun cands => h cands none (-1), ?_⟩
  intro c score ⟨h2, h3⟩
  simp only [rule3Fires, h2, ite_true, Bool.and_eq_true, decide_eq_true_eq] at h3
  omega

theorem C15_spec_scorer_refines_code_witness :
    specScore (envWith []) extAB [candT, candTD, candTA, candTA2] = some candTA ∧
    bestMatchOf (envWith []) extAB [candT, candTD, candTA, candTA2] = some candTA :=
  ⟨by decide,
    ((C15_spec_scorer_refines_code (envWith []) extAB).2.1
      [candT, candTD, candTA, candTA2]).symm.trans (by decide)⟩

/-! ## Theorems: artist strings of the two sources -/

theorem intercalate_go_length (sep : String) (l : List String) (acc : String) :
    (String.intercalate.go acc sep l).length
      = acc.length + (l.map String.length).sum + sep.length * l.length := by
  induction l generalizing acc with
  | nil => simp [String.intercalate.go]
  | cons a as ih =>
    simp only [String.intercalate.go, ih, String.length_append, List.map_cons, List.sum_cons,
      List.length_cons, Nat.mul_succ]
    omega

theorem intercalate_cons_length (sep a : String) (as : List String) :
    (sep.intercalate (a :: as)).length
      = a.length + (as.map String.length).sum + sep.length * as.length :=
  intercalate_go_length sep as a

/-- C16: for two or more artist names, `formatNcmMusicItem` joins them with
`/` and `formatEmbyMusicItem` joins the same names with a comma and a space;
the second string is longer by the number of separators, so the two differ;
with a length-preserving lower-casing, artistMatch is false for such a pair,
and when such a candidate is selected it is through title and duration. -/
theorem C16_artist_separators_differ (embyHost : Option String) (ncmSong : NcmSong)
    (embyItem : EmbyItem) (names : List String) (hn : 2 ≤ names.length)
    (hs : ncmSong.artists = some names) (hi : embyItem.Artists = some names) :
    (formatNcmMusicItem ncmSong).artist = "/".intercalate names ∧
    (formatEmbyMusicItem embyHost embyItem).artist = ", ".intercalate names ∧
    (formatEmbyMusicItem embyHost embyItem).artist.length
      = (formatNcmMusicItem ncmSong).artist.length + (names.length - 1) ∧
    (formatNcmMusicItem ncmSong).artist ≠ (formatEmbyMusicItem embyHost embyItem).artist ∧
    (∀ env : Env, (∀ s, (env.toLowerCase s).length = s.length) →
      artistMatch env (formatNcmMusicItem ncmSong) (formatEmbyMusicItem embyHost embyItem)
        = false ∧
      ∀ cands r, bestMatchOf env (formatNcmMusicItem ncmSong) cands = some r →
        r.artist = (formatEmbyMusicItem embyHost embyItem).artist →
        decentMatch env (formatNcmMusicItem ncmSong) r = true) := by
  obtain ⟨a, as, rfl⟩ : ∃ a as, names = a :: as := by
    cases names with
    | nil => simp at hn
    | cons a as => exact ⟨a, as, rfl⟩
  have has : 1 ≤ as.length := by
    simp only [List.length_cons] at hn
    omega
  have hN : (formatNcmMusicItem ncmSong).artist = "/".intercalate (a :: as) := by
    simp [formatNcmMusicItem, hs]
  have hlenE : (", ".intercalate (a :: as)).length
      = a.length + (as.map String.length).sum + 2 * as.length :=
    intercalate_cons_length ", " a as
  have hlenN : ("/".intercalate (a :: as)).length
      = a.length + (as.map String.length).sum + 1 * as.length :=
    intercalate_cons_length "/" a as
  have hne : ", ".intercalate (a :: as) ≠ "" := by
    intro h0
    have := congrArg String.length h0
    rw [hlenE] at this
    simp only [String.length_empty] at this
    omega
  have hE : (formatEmbyMusicItem embyHost embyItem).artist = ", ".intercalate (a :: as) := by
    simp [formatEmbyMusicItem, hi, orDefault, hne]
  have hlen : (formatEmbyMusicItem embyHost embyItem).artist.length
      = (formatNcmMusicItem ncmSong).artist.length + ((a :: as).length - 1) := by
    rw [hE, hN, hlenE, hlenN]
    simp only [List.length_cons]
    omega
  have hdiff : ∀ env : Env, (∀ s, (env.toLowerCase s).length = s.length) →
      ∀ r : MusicItem, r.artist = (formatEmbyMusicItem embyHost embyItem).artist →
      artistMatch env (formatNcmMusicItem ncmSong) r = false := by
    intro env hlc r hr
    unfold artistMatch
    rw [decide_eq_false_iff_not]
    intro heq
    have := congrArg String.length heq
    rw [hlc, hlc, hr, hlen] at this
    simp only [List.length_cons] at this
    omega
  refine ⟨hN, hE, hlen, ?_, ?_⟩
  · intro heq
    have := congrArg String.length heq
    rw [hlen] at this
    simp only [List.length_cons] at this
    omega
  · intro env hlc
    refine ⟨hdiff env hlc _ rfl, ?_⟩
    intro cands r hr hart
    have hA := hdiff env hlc r hart
    rcases scoreLoop_some_signals env _ cands none (-1) r hr with ⟨hT, hA' | hD⟩ | h
    · rw [hA] at hA'
      exact absurd hA' (by simp)
    · simp [decentMatch, hT, hD]
    · exact absurd h (by simp)

theorem C16_artist_separators_differ_witness :
    2 ≤ ["X", "Y"].length ∧
    (formatNcmMusicItem songTwoArtists).artist = "X/Y" ∧
    (formatEmbyMusicItem none itemTwoArtists).artist = "X, Y" ∧
    (formatNcmMusicItem songTwoArtists).artist
      ≠ (formatEmbyMusicItem none itemTwoArtists).artist :=
  ⟨by decide, by decide, by decide,
    (C16_artist_separators_differ none songTwoArtists itemTwoArtists ["X", "Y"] (by decide)
      rfl rfl).2.2.2.1⟩

/-! ## Theorems: the matching loop with its session -/

theorem findAndMerge_eq_mergeSearchResult (env : Env) (t : MusicItem) :
    findAndMergeNcmTrackOnEmby env t
      = mergeSearchResult env t (env.searchMusic (searchQuery t)) := by
  unfold findAndMergeNcmTrackOnEmby mergeSearchResult
  cases env.searchMusic (searchQuery t) <;> rfl

theorem runUnits_tracks (srv : Server) (s₀ : Session) (ts : List MusicItem) (s : Session) :
    (runUnits srv s₀ ts s).1.map Prod.fst = ts := by
  induction ts generalizing s with
  | nil => rfl
  | cons t ts ih => simp [runUnits, ih]

/-- Settling keeps the matched tracks equal to the non-null merges of the
outcomes, and moves the pending tracks, in order, to the outcomes. -/
theorem settleIn_inv (env : Env) (srv : Server) (st : SessionMatchState)
    (done : List MusicItem)
    (hm : st.matchedEmbyTracks
      = st.outcomes.filterMap (fun p => mergeSearchResult env p.1 p.2))
    (hd : st.outcomes.map Prod.fst ++ st.searchPromises = done) :
    (settleIn env srv st).matchedEmbyTracks
        = (settleIn env srv st).outcomes.filterMap (fun p => mergeSearchResult env p.1 p.2) ∧
      (settleIn env srv st).outcomes.map Prod.fst = done := by
  simp only [settleIn, List.filterMap_append, List.map_append, runUnits_tracks, hm, hd,
    and_self]

theorem matchStepIn_inv (env : Env) (srv : Server) (st : SessionMatchState)
    (done : List MusicItem) (t : MusicItem)
    (hm : st.matchedEmbyTracks
      = st.outcomes.filterMap (fun p => mergeSearchResult env p.1 p.2))
    (hd : st.outcomes.map Prod.fst ++ st.searchPromises = done) :
    (matchStepIn env srv st t).matchedEmbyTracks
        = (matchStepIn env srv st t).outcomes.filterMap
            (fun p => mergeSearchResult env p.1 p.2) ∧
      (matchStepIn env srv st t).outcomes.map Prod.fst
        ++ (matchStepIn env srv st t).searchPromises = done ++ [t] := by
  unfold matchStepIn
  simp only
  split
  · have h := settleIn_inv env srv { st with searchPromises := st.searchPromises ++ [t] }
      (done ++ [t]) hm (by simp [← hd])
    exact ⟨h.1, by simpa using h.2⟩
  · exact ⟨hm, by simp [← hd]⟩

theorem foldl_matchStepIn_inv (env : Env) (srv : Server) (l : List MusicItem) :
    ∀ (st : SessionMatchState) (done : List MusicItem),
      st.matchedEmbyTracks
        = st.outcomes.filterMap (fun p => mergeSearchResult env p.1 p.2) →
      st.outcomes.map Prod.fst ++ st.searchPromises = done →
      (l.foldl (matchStepIn env srv) st).matchedEmbyTracks
          = (l.foldl (matchStepIn env srv) st).outcomes.filterMap
              (fun p => mergeSearchResult env p.1 p.2) ∧
        (l.foldl (matchStepIn env srv) st).outcomes.map Prod.fst
          ++ (l.foldl (matchStepIn env srv) st).searchPromises = done ++ l := by
  induction l with
  | nil => intro st done hm hd; exact ⟨hm, by simpa using hd⟩
  | cons t ts ih =>
    intro st done hm hd
    have h := matchStepIn_inv env srv st done t hm hd
    have h2 := ih (matchStepIn env srv st t) (done ++ [t]) h.1 h.2
    simpa using h2

/-- The loop with its session settles one unit per track, in track order, and
returns the non-null merges of their outcomes. -/
theorem matchLoopIn_outcomes (env : Env) (srv : Server) (s : Session)
    (ncmTracks : List MusicItem) :
    (matchLoopIn env srv s ncmTracks).matchedEmbyTracks
        = (matchLoopIn env srv s ncmTracks).outcomes.filterMap
            (fun p => mergeSearchResult env p.1 p.2) ∧
      (matchLoopIn env srv s ncmTracks).outcomes.map Prod.fst = ncmTracks := by
  have h := foldl_matchStepIn_inv env srv ncmTracks ⟨[], [], s, []⟩ [] rfl rfl
  simp only [List.nil_append] at h
  unfold matchLoopIn settleRestIn
  split
  · exact settleIn_inv env srv _ ncmTracks h.1 h.2
  · rename_i hlen
    have hnil : (ncmTracks.foldl (matchStepIn env srv) ⟨[], [], s, []⟩).searchPromises = [] :=
      List.length_eq_zero.mp (by omega)
    rw [hnil, List.append_nil] at h
    exact h

/-- On a stable session a unit's search is the server's answer to its query
and leaves the session as it is. -/
theorem searchMusicUnit_stable (srv : Server) (s : Session) (h : StableSession srv s)
    (query : String) : (searchMusicUnit srv s s query).2 = s := by
  obtain ⟨hl, h401⟩ := h
  unfold searchMusicUnit embyApiGetUnit
  simp only [hl, if_true]
  cases htok : truthy s.embyAccessToken with
  | none => rfl
  | some token =>
    simp only
    cases hg : srv.getItems (s.embyHost.getD "null" ++
        ("/Users/" ++ s.embyUserId.getD "null" ++ "/Items")) s.embyUserId query token with
    | ok data => rfl
    | error error =>
      have := h401 _ _ _ _ _ hg
      simp [this]

theorem runUnits_stable (srv : Server) (s : Session) (h : StableSession srv s)
    (ts : List MusicItem) :
    runUnits srv s ts s
      = (ts.map (fun t => (t, (searchMusicUnit srv s s (searchQuery t)).1)), s) := by
  induction ts with
  | nil => rfl
  | cons t ts ih =>
    simp only [runUnits, searchMusicUnit_stable srv s h, ih, List.map_cons]

/-- On a stable session the loop with the session is the loop over the
session's answers: the session never changes and every outcome is the
server's answer to the track's query. -/
theorem foldl_matchStepIn_stable (env : Env) (srv : Server) (s : Session)
    (h : StableSession srv s) (l : List MusicItem) :
    ∀ st : SessionMatchState, st.session = s →
      (∀ p ∈ st.outcomes, p.2 = (searchMusicUnit srv s s (searchQuery p.1)).1) →
      (l.foldl (matchStepIn env srv) st).session = s ∧
        ∀ p ∈ (l.foldl (matchStepIn env srv) st).outcomes,
          p.2 = (searchMusicUnit srv s s (searchQuery p.1)).1 := by
  induction l with
  | nil => intro st hs ho; exact ⟨hs, ho⟩
  | cons t ts ih =>
    intro st hs ho
    simp only [List.foldl_cons]
    apply ih
    · unfold matchStepIn
      simp only
      split
      · simp only [settleIn, hs, runUnits_stable srv s h]
      · exact hs
    · unfold matchStepIn
      simp only
      split
      · simp only [settleIn, hs, runUnits_stable srv s h, List.mem_append, List.mem_map]
        rintro p (hp | ⟨t', _, rfl⟩)
        · exact ho p hp
        · rfl
      · exact ho

theorem scoreLoop_congr_toLowerCase (env env' : Env) (h : env.toLowerCase = env'.toLowerCase)
    (t : MusicItem) (l : List MusicItem) (best : Option MusicItem) (score : Int) :
    scoreLoop env t l best score = scoreLoop env' t l best score := by
  induction l generalizing best score with
  | nil => rfl
  | cons x xs ih => simp only [scoreLoop, titleMatch, artistMatch, h, ih]

theorem mergeSearchResult_congr_toLowerCase (env env' : Env)
    (h : env.toLowerCase = env'.toLowerCase) (t : MusicItem)
    (r : Except String (List MusicItem)) :
    mergeSearchResult env t r = mergeSearchResult env' t r := by
  unfold mergeSearchResult bestMatchOf
  cases r with
  | error e => rfl
  | ok data => simp only [scoreLoop_congr_toLowerCase env env' h]

theorem matchLoopIn_stable (env : Env) (srv : Server) (s : Session)
    (h : StableSession srv s) (ncmTracks : List MusicItem) :
    (matchLoopIn env srv s ncmTracks).matchedEmbyTracks
      = matchedInTrackOrder (sessionEnv env srv s) ncmTracks := by
  have hinv := matchLoopIn_outcomes env srv s ncmTracks
  have hst := foldl_matchStepIn_stable env srv s h ncmTracks ⟨[], [], s, []⟩ rfl
    (by intro p hp; simp at hp)
  have hall : ∀ p ∈ (matchLoopIn env srv s ncmTracks).outcomes,
      p.2 = (searchMusicUnit srv s s (searchQuery p.1)).1 := by
    unfold matchLoopIn settleRestIn
    split
    · simp only [settleIn, hst.1, runUnits_stable srv s h, List.mem_append, List.mem_map]
      rintro p (hp | ⟨t', _, rfl⟩)
      · exact hst.2 p hp
      · rfl
    · exact hst.2
  rw [hinv.1]
  unfold matchedInTrackOrder
  conv_rhs => rw [← hinv.2]
  rw [List.filterMap_map]
  apply List.filterMap_congr
  intro p hp
  simp only [Function.comp, findAndMerge_eq_mergeSearchResult]
  rw [show (sessionEnv env srv s).searchMusic (searchQuery p.1)
      = (searchMusicUnit srv s s (searchQuery p.1)).1 from rfl, ← hall p hp]
  exact mergeSearchResult_congr_toLowerCase env (sessionEnv env srv s) rfl p.1 p.2

theorem matchLoopIn_all_throw (env : Env) (srv : Server) (s : Session)
    (ncmTracks : List MusicItem)
    (h : ∀ p ∈ (matchLoopIn env srv s ncmTracks).outcomes, p.2.toBool = false) :
    (matchLoopIn env srv s ncmTracks).matchedEmbyTracks = [] := by
  rw [(matchLoopIn_outcomes env srv s ncmTracks).1, List.filterMap_eq_nil_iff]
  intro p hp
  have := h p hp
  cases hr : p.2 with
  | error e => simp [mergeSearchResult]
  | ok data => rw [hr] at this; simp [Except.toBool] at this

theorem processNcmPlaylistImportIn_of_listing (env : Env) (srv : Server) (s : Session)
    (id : JSString) (trackIds : List Nat) (h : env.playlistDetail id = .ok (some trackIds)) :
    (processNcmPlaylistImportIn env srv s id).1
      = .ok (matchLoopIn env srv s (fetchNcmTracks env trackIds).1).matchedEmbyTracks := by
  by_cases hl : trackIds.length = 0
  · have hnil : trackIds = [] := List.length_eq_zero.mp hl
    subst hnil
    simp only [processNcmPlaylistImportIn, getNcmPlaylistTrackIds, h, List.length_nil, if_true]
    rfl
  · simp only [processNcmPlaylistImportIn, getNcmPlaylistTrackIds, h, hl, if_false]

/-- C8, as the code has it: a unit whose search throws gives a null match,
and no search can make the run throw: once the listing has succeeded the run
returns normally, with the empty result when every search throws. On a
session that is established and that no answer clears, removing a track
whose search throws leaves the matches of the other tracks as they are. -/
theorem C8_throwing_search_gives_null (env : Env) (srv : Server) :
    (∀ t e, mergeSearchResult env t (.error e) = none) ∧
    (∀ s ncmTracks,
      (∀ p ∈ (matchLoopIn env srv s ncmTracks).outcomes, p.2.toBool = false) →
      (matchLoopIn env srv s ncmTracks).matchedEmbyTracks = []) ∧
    (∀ s id trackIds, env.playlistDetail id = .ok (some trackIds) →
      ∃ r, (processNcmPlaylistImportIn env srv s id).1 = .ok r) ∧
    (∀ s id trackIds, env.playlistDetail id = .ok (some trackIds) →
      (∀ p ∈ (matchLoopIn env srv s (fetchNcmTracks env trackIds).1).outcomes,
        p.2.toBool = false) →
      (processNcmPlaylistImportIn env srv s id).1 = .ok []) ∧
    (∀ s, StableSession srv s → ∀ pre t post,
      (searchMusicUnit srv s s (searchQuery t)).1.toBool = false →
      (matchLoopIn env srv s (pre ++ t :: post)).matchedEmbyTracks
        = (matchLoopIn env srv s (pre ++ post)).matchedEmbyTracks) := by
  refine ⟨fun _ _ => rfl, matchLoopIn_all_throw env srv, ?_, ?_, ?_⟩
  · intro s id trackIds hid
    exact ⟨_, processNcmPlaylistImportIn_of_listing env srv s id trackIds hid⟩
  · intro s id trackIds hid hall
    rw [processNcmPlaylistImportIn_of_listing env srv s id trackIds hid,
      matchLoopIn_all_throw env srv s _ hall]
  · intro s hs pre t post ht
    rw [matchLoopIn_stable env srv s hs, matchLoopIn_stable env srv s hs]
    have hnone : findAndMergeNcmTrackOnEmby (sessionEnv env srv s) t = none := by
      rw [findAndMerge_eq_mergeSearchResult]
      show mergeSearchResult _ t (searchMusicUnit srv s s (searchQuery t)).1 = none
      cases hr : (searchMusicUnit srv s s (searchQuery t)).1 with
      | error e => rfl
      | ok data => rw [hr] at ht; simp [Except.toBool] at ht
    simp [matchedInTrackOrder, List.filterMap_append, List.filterMap_cons, hnone]

theorem C8_throwing_search_gives_null_witness :
    (∀ p ∈ (matchLoopIn envThrow srvDown freshSession
        (fetchNcmTracks envThrow [1, 2]).1).outcomes, p.2.toBool = false) ∧
    (processNcmPlaylistImportIn envThrow srvDown freshSession (lit "1")).1 = .ok [] :=
  ⟨by decide,
    (C8_throwing_search_gives_null envThrow srvDown).2.2.2.1 freshSession (lit "1") [1, 2] rfl
      (by decide)⟩

/-- C8 as stated fails, in two ways. On a fresh session the search of the
first track throws, and removing that track from seven tracks changes the
result of another one: track 6 has a match with the first track present and
none without it. On an established session a track whose search is answered
401, followed by a refused login, clears the session: track 6, in the next
group, has no match with that track present and has one without it. -/
theorem C8_counterexample :
    (searchMusicUnit srvAB freshSession freshSession (searchQuery (extN 1))).1.toBool = false ∧
    (matchLoopIn envNcm srvAB freshSession
      [extN 1, extN 2, extN 3, extN 4, extN 5, extN 6, extN 7]).matchedEmbyTracks
        = [matchN 6, matchN 7] ∧
    (matchLoopIn envNcm srvAB freshSession
      [extN 2, extN 3, extN 4, extN 5, extN 6, extN 7]).matchedEmbyTracks = [matchN 7] ∧
    matchN 6 ≠ matchN 7 ∧
    (searchMusicUnit srvRefusing sessionAB sessionAB (searchQuery extBad)).1.toBool = false ∧
    (matchLoopIn envNcm srvRefusing sessionAB
      [extBad, extN 2, extN 3, extN 4, extN 5, extN 6]).matchedEmbyTracks
        = [matchN 2, matchN 3, matchN 4, matchN 5] ∧
    (matchLoopIn envNcm srvRefusing sessionAB
      [extN 2, extN 3, extN 4, extN 5, extN 6]).matchedEmbyTracks
        = [matchN 2, matchN 3, matchN 4, matchN 5, matchN 6] := by
  refine ⟨by decide, by decide, by decide, by decide, by decide, by decide, by decide⟩

/-- C9, as the code has it: the loop settles one unit per external track, in
track order, and returns the non-null results of these units in that order,
each result being the merge of the track with the outcome of its own search;
so the output has at most as many entries as there are tracks and the groups
of five do not reorder it. On a session that is established and that no
answer clears, the output is the track list mapped through the matcher with
the nulls dropped. -/
theorem C9_output_in_track_order (env : Env) (srv : Server) (s : Session)
    (ncmTracks : List MusicItem) :
    (matchLoopIn env srv s ncmTracks).outcomes.map Prod.fst = ncmTracks ∧
    (matchLoopIn env srv s ncmTracks).matchedEmbyTracks
      = (matchLoopIn env srv s ncmTracks).outcomes.filterMap
          (fun p => mergeSearchResult env p.1 p.2) ∧
    (matchLoopIn env srv s ncmTracks).matchedEmbyTracks.length ≤ ncmTracks.length ∧
    (StableSession srv s →
      (matchLoopIn env srv s ncmTracks).matchedEmbyTracks
        = matchedInTrackOrder (sessionEnv env srv s) ncmTracks) ∧
    (∀ id trackIds, env.playlistDetail id = .ok (some trackIds) →
      ncmTracks = (fetchNcmTracks env trackIds).1 →
      (processNcmPlaylistImportIn env srv s id).1
        = .ok ((matchLoopIn env srv s ncmTracks).outcomes.filterMap
            (fun p => mergeSearchResult env p.1 p.2))) := by
  have h := matchLoopIn_outcomes env srv s ncmTracks
  refine ⟨h.2, h.1, ?_, fun hs => matchLoopIn_stable env srv s hs ncmTracks, ?_⟩
  · rw [h.1]
    calc (List.filterMap _ (matchLoopIn env srv s ncmTracks).outcomes).length
        ≤ (matchLoopIn env srv s ncmTracks).outcomes.length := List.length_filterMap_le _ _
      _ = ((matchLoopIn env srv s ncmTracks).outcomes.map Prod.fst).length := by simp
      _ = ncmTracks.length := by rw [h.2]
  · intro id trackIds hid hf
    rw [processNcmPlaylistImportIn_of_listing env srv s id trackIds hid, ← hf, h.1]

theorem stableSession_srvAB : StableSession srvAB sessionAB := by
  refine ⟨by decide, ?_⟩
  intro fullUrl userId searchTerm token error h
  simp only [srvAB] at h
  split at h
  · cases h
  · injection h with h
    subst h
    decide

theorem C9_output_in_track_order_witness :
    (matchLoopIn envNcm srvAB sessionAB
      [extN 1, extMiss, extN 3, extN 4, extN 5, extN 6, extMiss, extN 8]).matchedEmbyTracks
      = matchedInTrackOrder (sessionEnv envNcm srvAB sessionAB)
          [extN 1, extMiss, extN 3, extN 4, extN 5, extN 6, extMiss, extN 8] ∧
    matchedInTrackOrder (sessionEnv envNcm srvAB sessionAB)
        [extN 1, extMiss, extN 3, extN 4, extN 5, extN 6, extMiss, extN 8]
      = [matchN 1, matchN 3, matchN 4, matchN 5, matchN 6, matchN 8] :=
  ⟨(C9_output_in_track_order envNcm srvAB sessionAB
      [extN 1, extMiss, extN 3, extN 4, extN 5, extN 6, extMiss, extN 8]).2.2.2.1
        stableSession_srvAB,
    by decide⟩

/-- C9 as stated fails: on a fresh session a playlist that lists one song
seven times returns two records, which is the image of the track list under
no function of the track: such an image has no or seven entries. -/
theorem C9_counterexample :
    (fetchNcmTracks envSeven [1, 1, 1, 1, 1, 1, 1]).1 = List.replicate 7 extSeven ∧
    (processNcmPlaylistImportIn envSeven srvAB freshSession (lit "1")).1
      = .ok [finalTrackItem extSeven (formatEmbyMusicItem (some "http://h") itemAB),
          finalTrackItem extSeven (formatEmbyMusicItem (some "http://h") itemAB)] ∧
    ∀ f : MusicItem → Option MusicItem,
      (processNcmPlaylistImportIn envSeven srvAB freshSession (lit "1")).1
        ≠ .ok ((List.replicate 7 extSeven).filterMap f) := by
  have hrun : (processNcmPlaylistImportIn envSeven srvAB freshSession (lit "1")).1
      = .ok [finalTrackItem extSeven (formatEmbyMusicItem (some "http://h") itemAB),
          finalTrackItem extSeven (formatEmbyMusicItem (some "http://h") itemAB)] := by
    rw [processNcmPlaylistImportIn_of_listing envSeven srvAB freshSession (lit "1")
      [1, 1, 1, 1, 1, 1, 1] rfl]
    exact congrArg Except.ok (by decide)
  refine ⟨by decide, hrun, ?_⟩
  intro f hf
  rw [hrun] at hf
  injection hf with hf
  have hlen := congrArg List.length hf
  cases hft : f extSeven with
  | none =>
    rw [show (List.replicate 7 extSeven).filterMap f = [] from by
      simp [List.replicate, List.filterMap_cons, hft]] at hlen
    simp at hlen
  | some y =>
    rw [show (List.replicate 7 extSeven).filterMap f = List.replicate 7 y from by
      simp [List.replicate, List.filterMap_cons, hft]] at hlen
    simp at hlen

end Emby
